import Mathlib

/-!
# fizz: display projection and format selection

A shallow embedding of `internal/format/display.go` and
`internal/format/formatter.go`.

Go strings are immutable byte sequences: `len(s)` counts bytes and `s[:n]`
slices bytes.  A text (a sequence of Unicode characters) reaches the program
as its UTF-8 encoding.  A slice expression with a bound outside
`0 ≤ hi ≤ len(s)` is a run-time panic, modelled as `none`.
-/

namespace Fizz

/-! ## Go strings -/

/-- A Go `string`: a sequence of bytes. -/
abbrev GoString := List UInt8

/-- The UTF-8 encoding of a text, the bytes a Go string holds for it. -/
def utf8 (s : List Char) : GoString :=
  s.flatMap String.utf8EncodeChar

/-- A Go string literal. -/
def lit (s : String) : GoString :=
  utf8 s.toList

/-- A character whose UTF-8 encoding is one byte long. -/
def singleByte (c : Char) : Prop :=
  (String.utf8EncodeChar c).length = 1

instance (c : Char) : Decidable (singleByte c) := by
  unfold singleByte; infer_instance

/-- The slice expression `s[:hi]`; out-of-range bounds panic. -/
def sliceTo (s : GoString) (hi : Int) : Option GoString :=
  if 0 ≤ hi ∧ hi ≤ (s.length : Int) then some (s.take hi.toNat) else none

/-- The function `strings.Join(elems, sep)`. -/
def Join : List GoString → GoString → GoString
  | [], _ => []
  | [a], _ => a
  | a :: b :: rest, sep => a ++ sep ++ Join (b :: rest) sep

/-! ## display.go -/

/-- The function `truncate` of display.go. -/
def truncate (s : GoString) (maxLen : Int) : Option GoString :=
  if (s.length : Int) ≤ maxLen then
    some s
  else if maxLen ≤ 3 then
    sliceTo s maxLen
  else
    (sliceTo s (maxLen - 3)).map (fun p => p ++ lit "...")

/-- The function `formatNames` of display.go. -/
def formatNames (names : List GoString) (maxLen : Int) : Option GoString :=
  if names.length = 0 then
    some []
  else
    truncate (Join names (lit ", ")) maxLen

/-! ### Domain records

The records of the client library that display.go reads.  Only the fields the
projections use are kept.  A Go pointer that may be nil is an `Option`. -/

/-- The broken-down wall-clock reading of a `time.Time` in its own location:
what `t.Date()` and `t.Clock()` return. -/
structure Time where
  year : Int
  month : Nat
  day : Nat
  hour : Nat
  minute : Nat
deriving DecidableEq, Repr

/-- The decimal digits of a natural number, as `strconv` prints them. -/
def digits (n : Nat) : List Char :=
  Nat.toDigits 10 n

/-- The helper `appendInt` of package time: decimal digits of `x`, a leading
minus sign for negatives, zero-padded to at least `width` digits. -/
def appendInt (x : Int) (width : Nat) : List Char :=
  let ds := digits x.natAbs
  let padded := List.replicate (width - ds.length) '0' ++ ds
  if x < 0 then '-' :: padded else padded

/-- The method `Time.Format` for layouts built from the reference elements
`2006`, `01`, `02`, `15`, `04` and literal separators. -/
def Time.Format (t : Time) : List Char → List Char
  | '2' :: '0' :: '0' :: '6' :: rest => appendInt t.year 4 ++ Time.Format t rest
  | '0' :: '1' :: rest => appendInt t.month 2 ++ Time.Format t rest
  | '0' :: '2' :: rest => appendInt t.day 2 ++ Time.Format t rest
  | '1' :: '5' :: rest => appendInt t.hour 2 ++ Time.Format t rest
  | '0' :: '4' :: rest => appendInt t.minute 2 ++ Time.Format t rest
  | c :: rest => c :: Time.Format t rest
  | [] => []

/-- A tag of a card. -/
structure Tag where
  Name : GoString
deriving DecidableEq, Repr

/-- A user: an assignee of a card or the creator of a board. -/
structure User where
  Name : GoString
deriving DecidableEq, Repr

/-- The board reference nested in a card. -/
structure BoardRef where
  Name : GoString
deriving DecidableEq, Repr

/-- The record `fizzy.Card`. -/
structure Card where
  Number : Int
  Title : GoString
  Status : GoString
  Description : Option GoString
  Board : Option BoardRef
  Tags : List Tag
  Assignees : List User
  Golden : Bool
  Closed : Bool
  CreatedAt : Time
  URL : GoString
deriving DecidableEq, Repr

/-- The record `fizzy.Board`. -/
structure Board where
  ID : GoString
  Name : GoString
  Description : Option GoString
  AllAccess : Bool
  Creator : Option User
  CreatedAt : Time
  URL : GoString
deriving DecidableEq, Repr

/-! ### Display records -/

/-- The record `CardDisplay`. -/
structure CardDisplay where
  Num : Int
  Title : GoString
  Desc : GoString
  Status : GoString
  Board : GoString
  Tags : GoString
deriving DecidableEq, Repr

/-- The record `CardDetailDisplay`. -/
structure CardDetailDisplay where
  Number : Int
  Title : GoString
  Description : GoString
  Status : GoString
  Board : GoString
  Golden : Bool
  Closed : Bool
  Assignees : GoString
  Tags : GoString
  Created : GoString
  URL : GoString
deriving DecidableEq, Repr

/-- The record `BoardDisplay`. -/
structure BoardDisplay where
  Name : GoString
  Desc : GoString
  Access : GoString
  Creator : GoString
  Created : GoString
deriving DecidableEq, Repr

/-- The record `BoardDetailDisplay`. -/
structure BoardDetailDisplay where
  ID : GoString
  Name : GoString
  Description : GoString
  AllAccess : Bool
  Creator : GoString
  Created : GoString
  URL : GoString
deriving DecidableEq, Repr

/-! ### Projections -/

/-- The function `ToCardDisplay` of display.go. -/
def ToCardDisplay (card : Card) : Option CardDisplay := do
  let title ← truncate card.Title 40
  let display : CardDisplay :=
    { Num := card.Number, Title := title, Desc := [], Status := card.Status,
      Board := [], Tags := [] }
  let display ←
    match card.Description with
    | some d =>
      if d ≠ [] then (truncate d 30).map (fun x => { display with Desc := x })
      else some display
    | none => some display
  let display ←
    match card.Board with
    | some b => (truncate b.Name 20).map (fun x => { display with Board := x })
    | none => some display
  let display ←
    if card.Tags.length > 0 then
      (formatNames (card.Tags.map Tag.Name) 15).map (fun x => { display with Tags := x })
    else some display
  return display

/-- The function `ToCardDetailDisplay` of display.go. -/
def ToCardDetailDisplay (card : Card) : CardDetailDisplay :=
  let display : CardDetailDisplay :=
    { Number := card.Number, Title := card.Title, Description := [],
      Status := card.Status, Board := [], Golden := card.Golden,
      Closed := card.Closed, Assignees := [], Tags := [],
      Created := utf8 (card.CreatedAt.Format "2006-01-02 15:04".toList),
      URL := card.URL }
  let display :=
    match card.Description with
    | some d => if d ≠ [] then { display with Description := d } else display
    | none => display
  let display :=
    match card.Board with
    | some b => { display with Board := b.Name }
    | none => display
  let display :=
    if card.Assignees.length > 0 then
      { display with Assignees := Join (card.Assignees.map User.Name) (lit ", ") }
    else display
  let display :=
    if card.Tags.length > 0 then
      { display with Tags := Join (card.Tags.map Tag.Name) (lit ", ") }
    else display
  display

/-- The function `ToCardDisplaySlice` of display.go. -/
def ToCardDisplaySlice (cards : List Card) : Option (List CardDisplay) :=
  cards.mapM ToCardDisplay

/-- The function `ToBoardDisplay` of display.go. -/
def ToBoardDisplay (board : Board) : Option BoardDisplay := do
  let name ← truncate board.Name 30
  let display : BoardDisplay :=
    { Name := name, Desc := [], Access := [], Creator := [],
      Created := utf8 (board.CreatedAt.Format "2006-01-02".toList) }
  let display ←
    match board.Description with
    | some d =>
      if d ≠ [] then (truncate d 40).map (fun x => { display with Desc := x })
      else some display
    | none => some display
  let display :=
    if board.AllAccess then { display with Access := lit "all" }
    else { display with Access := lit "restricted" }
  let display ←
    match board.Creator with
    | some u => (truncate u.Name 20).map (fun x => { display with Creator := x })
    | none => some display
  return display

/-- The function `ToBoardDetailDisplay` of display.go. -/
def ToBoardDetailDisplay (board : Board) : BoardDetailDisplay :=
  let display : BoardDetailDisplay :=
    { ID := board.ID, Name := board.Name, Description := [],
      AllAccess := board.AllAccess, Creator := [],
      Created := utf8 (board.CreatedAt.Format "2006-01-02 15:04".toList),
      URL := [] }
  let display :=
    match board.Description with
    | some d => if d ≠ [] then { display with Description := d } else display
    | none => display
  let display :=
    if board.URL ≠ [] then { display with URL := board.URL } else display
  let display :=
    match board.Creator with
    | some u => { display with Creator := u.Name }
    | none => display
  display

/-- The function `ToBoardDisplaySlice` of display.go. -/
def ToBoardDisplaySlice (boards : List Board) : Option (List BoardDisplay) :=
  boards.mapM ToBoardDisplay

/-! ## formatter.go -/

/-- The interface `Formatter` with its three implementations, each holding
the writer it was built with. -/
inductive Formatter (W : Type) where
  | TableFormatter (Writer : W)
  | JSONFormatter (Writer : W)
  | YAMLFormatter (Writer : W)
deriving DecidableEq, Repr

/-- The function `NewFormatter` of formatter.go.  `writer` is an `io.Writer`
interface value, `none` when nil; `stdout` stands for `os.Stdout`.  The
error carries the message built by `fmt.Errorf`. -/
def NewFormatter {W : Type} (stdout : W) (format : GoString) (writer : Option W) :
    Except GoString (Formatter W) :=
  let writer := match writer with
    | none => stdout
    | some w => w
  if format = lit "table" ∨ format = lit "" then
    Except.ok (Formatter.TableFormatter writer)
  else if format = lit "json" then
    Except.ok (Formatter.JSONFormatter writer)
  else if format = lit "yaml" then
    Except.ok (Formatter.YAMLFormatter writer)
  else
    Except.error
      (lit "unsupported format: " ++ format ++ lit " (supported: table, json, yaml)")

/-! ## table.go

The table renderer inspects its argument through package reflect.  The values
it can meet are modelled by `Value`; a `reflect.Value` is an `Option Value`,
`none` being the invalid zero Value.  A panic is `none` in the result.

The libraries the renderer calls are not part of the repository and enter as
the fields of `Env`. -/

/-- A Go `error`, identified by its message. -/
abbrev GoError := GoString

/-- An output sink (an `io.Writer`): the bytes it has accepted, and the error
with which its writes fail, if they do. -/
structure Sink where
  written : GoString
  failure : Option GoError
deriving DecidableEq, Repr

/-- One call of the method `Write` on a sink. -/
def Sink.Write (w : Sink) (p : GoString) : Sink × Option GoError :=
  match w.failure with
  | some e => (w, some e)
  | none => ({ w with written := w.written ++ p }, none)

/-- A `reflect.StructField` together with the value the field holds. -/
structure StructField (α : Type) where
  Name : GoString
  PkgPath : GoString
  Value : α

/-- The method `StructField.IsExported`: the package path is empty. -/
def StructField.IsExported {α : Type} (f : StructField α) : Bool :=
  f.PkgPath.isEmpty

/-- The Go values a renderer can be handed, by kind. -/
inductive Value where
  | bool (b : Bool)
  | int (n : Int)
  | string (s : GoString)
  | other (tag : Nat)
  | iface (dyn : Option Value)
  | ptr (elem : Option Value)
  | slice (elems : List Value)
  | struct (fields : List (StructField Value))

/-- The kinds of package reflect that table.go tells apart. -/
inductive Kind where
  | Invalid
  | Bool
  | Int
  | String
  | Other
  | Interface
  | Ptr
  | Slice
  | Struct
deriving DecidableEq, Repr

/-- The method `Value.Kind` of package reflect. -/
def Kind.of : Option Value → Kind
  | none => Kind.Invalid
  | some (Value.bool _) => Kind.Bool
  | some (Value.int _) => Kind.Int
  | some (Value.string _) => Kind.String
  | some (Value.other _) => Kind.Other
  | some (Value.iface _) => Kind.Interface
  | some (Value.ptr _) => Kind.Ptr
  | some (Value.slice _) => Kind.Slice
  | some (Value.struct _) => Kind.Struct

/-- The statement `if v.Kind() == reflect.Ptr { v = v.Elem() }`. -/
def deref (v : Option Value) : Option Value :=
  match v with
  | some (Value.ptr elem) => elem
  | _ => v

/-- The method `Value.Interface` on a valid value: the value as an
`interface{}`, which for a value of interface kind is its dynamic content. -/
def Value.Interface : Value → Option Value
  | Value.iface dyn => dyn
  | v => some v

/-- The method `Value.Interface` of package reflect; it panics on the zero
Value. -/
def Interface (v : Option Value) : Option (Option Value) :=
  v.map Value.Interface

/-- A table of package tablewriter: what `Header` and `Append` have stored. -/
structure Table where
  header : List GoString
  rows : List (List GoString)
deriving DecidableEq, Repr

/-- The constructor `tablewriter.NewWriter`. -/
def NewWriter : Table :=
  { header := [], rows := [] }

/-- The method `Table.Header`. -/
def Table.Header (t : Table) (cells : List GoString) : Table :=
  { t with header := cells }

/-- The method `Table.Append`: the arguments of one call are the cells of one
row. -/
def Table.Append (t : Table) (row : List GoString) : Table :=
  { t with rows := t.rows ++ [row] }

/-- The library functions table.go calls: the colour switch and colour
wrappers of package color, the non-ASCII path of `strings.ToLower`, the
conversion `fmt.Sprintf("%v", x)` and the method `Table.Render`. -/
structure Env where
  NoColor : Bool
  GreenString : GoString → GoString
  BlueString : GoString → GoString
  RedString : GoString → GoString
  YellowString : GoString → GoString
  mapLower : GoString → GoString
  Sprint : Option Value → GoString
  Render : Table → Sink → Sink × Option GoError

/-- The ASCII path of `strings.ToLower`. -/
def asciiLower (s : GoString) : GoString :=
  s.map (fun c => if 0x41 ≤ c ∧ c ≤ 0x5A then c + 0x20 else c)

/-- The function `strings.ToLower`: ASCII-only strings are lowered byte by
byte, the others go through `strings.Map(unicode.ToLower, s)`. -/
def ToLower (mapLower : GoString → GoString) (s : GoString) : GoString :=
  if s.all (fun c => c < 0x80) then asciiLower s else mapLower s

/-- The function `strings.Contains`. -/
def Contains (s substr : GoString) : Bool :=
  s.tails.any (fun t => substr.isPrefixOf t)

/-- The method `colorizeStatus` of table.go. -/
def colorizeStatus (env : Env) (status : GoString) : GoString :=
  if env.NoColor then
    status
  else
    let lower := ToLower env.mapLower status
    if Contains lower (lit "open") || Contains lower (lit "active") then
      env.GreenString status
    else if Contains lower (lit "closed") || Contains lower (lit "completed") then
      env.BlueString status
    else if Contains lower (lit "error") || Contains lower (lit "failed") then
      env.RedString status
    else if Contains lower (lit "pending") || Contains lower (lit "waiting") then
      env.YellowString status
    else
      status

/-- The method `getHeaders` of table.go. -/
def getHeaders (v : Option Value) : List GoString × Option GoError :=
  let v := deref v
  match v with
  | some (Value.struct fields) =>
    let headers := fields.foldl
      (fun headers field =>
        if !field.IsExported then headers else headers ++ [field.Name]) []
    (headers, none)
  | _ => ([lit "Value"], none)

/-- The method `getRow` of table.go. -/
def getRow (env : Env) (v : Option Value) : Option (List GoString × Option GoError) :=
  let v := deref v
  match v with
  | some (Value.struct fields) =>
    let row := fields.foldl
      (fun row field =>
        if !field.IsExported then row
        else
          let value := env.Sprint field.Value.Interface
          let value :=
            if Contains (ToLower env.mapLower field.Name) (lit "status") then
              colorizeStatus env value
            else value
          row ++ [value]) []
    some (row, none)
  | _ => (Interface v).map (fun x => ([env.Sprint x], none))

/-- The row loop of `formatSlice`: `none` is a panic, an error stops the
loop. -/
def appendRows (env : Env) : List Value → Table → Option (Except GoError Table)
  | [], table => some (Except.ok table)
  | elem :: rest, table =>
    match getRow env (some elem) with
    | none => none
    | some (_, some err) => some (Except.error err)
    | some (row, none) => appendRows env rest (table.Append row)

/-- The method `formatSlice` of table.go. -/
def formatSlice (env : Env) (w : Sink) (elems : List Value) :
    Option (Sink × Option GoError) :=
  match elems with
  | [] => some (w, none)
  | first :: _ =>
    match getHeaders (some first) with
    | (_, some err) => some (w, some err)
    | (headers, none) =>
      let table := NewWriter.Header headers
      match appendRows env elems table with
      | none => none
      | some (Except.error err) => some (w, some err)
      | some (Except.ok table) => some (env.Render table w)

/-- The method `formatSingle` of table.go. -/
def formatSingle (env : Env) (w : Sink) (data : Option Value) :
    Option (Sink × Option GoError) :=
  let v := deref data
  match v with
  | some (Value.struct fields) =>
    let table := NewWriter.Header [lit "Field", lit "Value"]
    let table := fields.foldl
      (fun table field =>
        if !field.IsExported then table
        else
          let fieldName := field.Name
          let fieldValue := env.Sprint field.Value.Interface
          let fieldValue :=
            if Contains (ToLower env.mapLower fieldName) (lit "status") then
              colorizeStatus env fieldValue
            else fieldValue
          table.Append [fieldName, fieldValue]) table
    some (env.Render table w)
  | _ =>
    let r := w.Write (env.Sprint data ++ lit "\n")
    some (r.1, none)

/-- The method `TableFormatter.Format` of table.go. -/
def TableFormatter.Format (env : Env) (w : Sink) (data : Option Value) :
    Option (Sink × Option GoError) :=
  match data with
  | none => some (w, none)
  | some (Value.slice elems) =>
    if elems.length = 0 then
      let r := w.Write (lit "No results found\n")
      some (r.1, none)
    else
      formatSlice env w elems
  | some _ => formatSingle env w data

/-! ### A concrete environment

An instance of the library functions for evaluating the renderer on examples:
ANSI colour wrappers, the decimal and literal forms of scalars, and a
rendering that writes one line per row with the cells separated by a bar. -/

/-- The `%v` form of the scalar kinds and of nil. -/
def sampleSprint : Option Value → GoString
  | none => lit "<nil>"
  | some (Value.iface _) => lit "<nil>"
  | some (Value.ptr _) => lit "<nil>"
  | some (Value.string s) => s
  | some (Value.bool b) => if b then lit "true" else lit "false"
  | some (Value.int n) => utf8 (appendInt n 0)
  | some _ => []

/-- A rendering of a table in one write: a line for the header and a line for
each row. -/
def sampleRender (t : Table) (w : Sink) : Sink × Option GoError :=
  let line := fun (cells : List GoString) => Join cells (lit "|") ++ lit "\n"
  w.Write (line t.header ++ (t.rows.map line).flatten)

/-- The concrete environment, with colour enabled. -/
def sampleEnv : Env :=
  { NoColor := false
    GreenString := fun s => lit "\x1b[32m" ++ s ++ lit "\x1b[0m"
    BlueString := fun s => lit "\x1b[34m" ++ s ++ lit "\x1b[0m"
    RedString := fun s => lit "\x1b[31m" ++ s ++ lit "\x1b[0m"
    YellowString := fun s => lit "\x1b[33m" ++ s ++ lit "\x1b[0m"
    mapLower := fun s => s
    Sprint := sampleSprint
    Render := sampleRender }

/-- A record with three exported fields and one unexported field. -/
def sampleRecord : Value :=
  Value.struct
    [{ Name := lit "Number", PkgPath := [], Value := Value.int 7 },
     { Name := lit "Title", PkgPath := [], Value := Value.string (lit "failed to open") },
     { Name := lit "Status", PkgPath := [], Value := Value.string (lit "open") },
     { Name := lit "cache", PkgPath := lit "format", Value := Value.int 1 }]

/-- A sink that accepts writes, still empty. -/
def emptySink : Sink :=
  { written := [], failure := none }

/-- A sink whose writes fail. -/
def brokenSink : Sink :=
  { written := [], failure := some (lit "write: broken pipe") }

/-! ### Vocabulary of the statements -/

/-- The visible fields of a record: the exported ones, in declaration order. -/
def visibleFields (fields : List (StructField Value)) : List (StructField Value) :=
  fields.filter (fun f => f.IsExported)

/-- The fields of a record, given directly or through a non-nil pointer. -/
def recordFields : Value → List (StructField Value)
  | Value.struct fields => fields
  | Value.ptr (some (Value.struct fields)) => fields
  | _ => []

/-- A structured record or a non-nil pointer to one. -/
def isRecord : Value → Bool
  | Value.struct _ => true
  | Value.ptr (some (Value.struct _)) => true
  | _ => false

/-- The generic string form of a field's value. -/
def stringForm (env : Env) (f : StructField Value) : GoString :=
  env.Sprint f.Value.Interface

/-- The cell the renderer builds for a field. -/
def cellText (env : Env) (f : StructField Value) : GoString :=
  if Contains (ToLower env.mapLower f.Name) (lit "status") then
    colorizeStatus env (stringForm env f)
  else stringForm env f

/-- The case-insensitive substring test of colorizeStatus: the lower-cased
text contains the keyword. -/
def mentions (env : Env) (x : GoString) (keyword : String) : Bool :=
  Contains (ToLower env.mapLower x) (lit keyword)

/-- The names and package paths of a record's fields, in declaration order:
what the record's Go type fixes. -/
def shape (e : Value) : List (GoString × GoString) :=
  (recordFields e).map (fun f => (f.Name, f.PkgPath))

/-- Two elements can stand in one Go slice: a slice has one element type, so
its elements are all of that kind, and structs (or the structs behind
pointers) have the same fields.  Records of different types can only share a
slice whose element type is an interface; its elements are of interface kind. -/
def sameElemType : Value → Value → Bool
  | Value.iface _, Value.iface _ => true
  | Value.struct fa, Value.struct fb =>
    fa.map (fun f => (f.Name, f.PkgPath)) = fb.map (fun f => (f.Name, f.PkgPath))
  | Value.ptr (some (Value.struct fa)), Value.ptr (some (Value.struct fb)) =>
    fa.map (fun f => (f.Name, f.PkgPath)) = fb.map (fun f => (f.Name, f.PkgPath))
  | Value.ptr (some a), Value.ptr (some b) => Kind.of (some a) = Kind.of (some b)
  | Value.ptr _, Value.ptr _ => true
  | Value.bool _, Value.bool _ => true
  | Value.int _, Value.int _ => true
  | Value.string _, Value.string _ => true
  | Value.other s, Value.other t => s = t
  | Value.slice _, Value.slice _ => true
  | _, _ => false

/-- The fields of the record an element holds, directly, behind a pointer or
inside an interface value. -/
def heldFields : Value → List (StructField Value)
  | Value.iface (some v) => recordFields v
  | v => recordFields v

/-- The value `CardDisplay` as package reflect sees it: six exported fields
in declaration order. -/
def CardDisplay.toValue (d : CardDisplay) : Value :=
  Value.struct
    [{ Name := lit "Num", PkgPath := [], Value := Value.int d.Num },
     { Name := lit "Title", PkgPath := [], Value := Value.string d.Title },
     { Name := lit "Desc", PkgPath := [], Value := Value.string d.Desc },
     { Name := lit "Status", PkgPath := [], Value := Value.string d.Status },
     { Name := lit "Board", PkgPath := [], Value := Value.string d.Board },
     { Name := lit "Tags", PkgPath := [], Value := Value.string d.Tags }]

/-- The value `BoardDisplay` as package reflect sees it: five exported fields
in declaration order. -/
def BoardDisplay.toValue (d : BoardDisplay) : Value :=
  Value.struct
    [{ Name := lit "Name", PkgPath := [], Value := Value.string d.Name },
     { Name := lit "Desc", PkgPath := [], Value := Value.string d.Desc },
     { Name := lit "Access", PkgPath := [], Value := Value.string d.Access },
     { Name := lit "Creator", PkgPath := [], Value := Value.string d.Creator },
     { Name := lit "Created", PkgPath := [], Value := Value.string d.Created }]

/-! ## cmd: the list, get and delete commands

The commands are modelled from the point where the remote call has returned.
What a command hands to `formatter.Format` is recorded as a `FormatCall`. -/

/-- The argument of a `formatter.Format` call made by the card and board
commands. -/
inductive RenderArg where
  | cardDisplays (displays : List CardDisplay)
  | cards (cards : List Card)
  | cardDetail (display : CardDetailDisplay)
  | card (card : Card)
  | boards (boards : List Board)
deriving DecidableEq, Repr

/-- The call `formatter.Format(data)`. -/
structure FormatCall (W : Type) where
  formatter : Formatter W
  data : RenderArg
deriving DecidableEq, Repr

/-- The slice expression `xs[:hi]` on a slice of records. -/
def sliceList {α : Type} (xs : List α) (hi : Int) : Option (List α) :=
  if 0 ≤ hi ∧ hi ≤ (xs.length : Int) then some (xs.take hi.toNat) else none

/-- The statement `if limit > 0 && len(xs) > limit { xs = xs[:limit] }` of the
list commands. -/
def applyLimit {α : Type} (limit : Int) (xs : List α) : Option (List α) :=
  if limit > 0 ∧ (xs.length : Int) > limit then sliceList xs limit else some xs

/-- The body of `cardsListCmd` after `ListAll` has returned `cards`; `format`
is what `GetFormat()` returns. -/
def cardsListCmd {W : Type} (stdout : W) (format : GoString) (writer : Option W)
    (limit : Int) (cards : List Card) : Option (Except GoError (FormatCall W)) := do
  let cards ← applyLimit limit cards
  match NewFormatter stdout format writer with
  | Except.error err => return Except.error err
  | Except.ok formatter =>
    if format = lit "table" then
      let displays ← ToCardDisplaySlice cards
      return Except.ok { formatter := formatter, data := RenderArg.cardDisplays displays }
    else
      return Except.ok { formatter := formatter, data := RenderArg.cards cards }

/-- The body of `cardsGetCmd` after `Cards.Get` has returned `card`. -/
def cardsGetCmd {W : Type} (stdout : W) (format : GoString) (writer : Option W)
    (card : Card) : Except GoError (FormatCall W) :=
  match NewFormatter stdout format writer with
  | Except.error err => Except.error err
  | Except.ok formatter =>
    if format = lit "table" then
      Except.ok { formatter := formatter,
                  data := RenderArg.cardDetail (ToCardDetailDisplay card) }
    else
      Except.ok { formatter := formatter, data := RenderArg.card card }

/-- The body of `boardsListCmd` after `Boards.List` has returned `boards`. -/
def boardsListCmd {W : Type} (stdout : W) (format : GoString) (writer : Option W)
    (limit : Int) (boards : List Board) : Option (Except GoError (FormatCall W)) := do
  let boards ← applyLimit limit boards
  match NewFormatter stdout format writer with
  | Except.error err => return Except.error err
  | Except.ok formatter =>
    return Except.ok { formatter := formatter, data := RenderArg.boards boards }

/-- An operand of `fmt.Fprintf`. -/
inductive Arg where
  | str (s : GoString)
  | int (n : Int)
deriving DecidableEq, Repr

/-- One verb of package fmt applied to one operand: `%s` and `%v` print a
string as it is, `%d` and `%v` print an integer in decimal, and a verb that
does not fit the operand prints `%!verb(type=value)`. -/
def formatVerb (verb : Char) (a : Arg) : GoString :=
  match a with
  | Arg.str s =>
    if verb = 's' ∨ verb = 'v' then s
    else lit "%!" ++ utf8 [verb] ++ lit "(string=" ++ s ++ lit ")"
  | Arg.int n =>
    if verb = 'd' ∨ verb = 'v' then utf8 (appendInt n 0)
    else lit "%!" ++ utf8 [verb] ++ lit "(int=" ++ utf8 (appendInt n 0) ++ lit ")"

/-- The function `fmt.Sprintf` for formats made of literal text and plain
one-letter verbs, with as many operands as verbs. -/
def Sprintf : List Char → List Arg → GoString
  | '%' :: verb :: rest, a :: args => formatVerb verb a ++ Sprintf rest args
  | c :: rest, args => utf8 [c] ++ Sprintf rest args
  | [], _ => []

/-- The method `ResolveCardID` of resolver.go. -/
def ResolveCardID (input : GoString) : GoString × Option GoError :=
  (input, none)

/-- The body of `cardsDeleteCmd`; `deleteErr` is what `Cards.Delete` returns. -/
def cardsDeleteCmd (w : Sink) (arg : GoString) (deleteErr : Option GoError) :
    Sink × Option GoError :=
  match ResolveCardID arg with
  | (_, some err) => (w, some err)
  | (cardID, none) =>
    match deleteErr with
    | some err => (w, some (lit "failed to delete card: " ++ err))
    | none =>
      let r := w.Write (Sprintf "Card %d deleted successfully\n".toList [Arg.str cardID])
      (r.1, none)

/-- The body of `cardsCloseCmd`; `closeErr` is what `Cards.Close` returns. -/
def cardsCloseCmd (w : Sink) (arg : GoString) (closeErr : Option GoError) :
    Sink × Option GoError :=
  match ResolveCardID arg with
  | (_, some err) => (w, some err)
  | (cardID, none) =>
    match closeErr with
    | some err => (w, some (lit "failed to close card: " ++ err))
    | none =>
      let r := w.Write (Sprintf "Card %s closed successfully\n".toList [Arg.str cardID])
      (r.1, none)

/-- The body of `cardsReopenCmd`; `reopenErr` is what `Cards.Reopen` returns. -/
def cardsReopenCmd (w : Sink) (arg : GoString) (reopenErr : Option GoError) :
    Sink × Option GoError :=
  match ResolveCardID arg with
  | (_, some err) => (w, some err)
  | (cardID, none) =>
    match reopenErr with
    | some err => (w, some (lit "failed to reopen card: " ++ err))
    | none =>
      let r := w.Write (Sprintf "Card %s reopened successfully\n".toList [Arg.str cardID])
      (r.1, none)

/-- A card with a title, a status and nothing else set. -/
def sampleCard : Card :=
  { Number := 7, Title := lit "Fix login", Status := lit "open", Description := none,
    Board := none, Tags := [], Assignees := [], Golden := false, Closed := false,
    CreatedAt := { year := 2024, month := 3, day := 7, hour := 9, minute := 5 },
    URL := lit "https://fizzy.do/cards/7" }

/-- An element that holds a record: a struct, a non-nil pointer to one, or an
interface value whose content is one of these. -/
def holdsRecord : Value → Bool
  | Value.iface (some v) => isRecord v
  | v => isRecord v

/-- A record with two exported fields, of another type than `sampleRecord`. -/
def sampleBoardRecord : Value :=
  Value.struct
    [{ Name := lit "Name", PkgPath := [], Value := Value.string (lit "Roadmap") },
     { Name := lit "Access", PkgPath := [], Value := Value.string (lit "all") }]

/-! ## Encoding lemmas -/

theorem utf8_cons (c : Char) (s : List Char) :
    utf8 (c :: s) = String.utf8EncodeChar c ++ utf8 s := by
  simp [utf8]

theorem utf8_append (a b : List Char) : utf8 (a ++ b) = utf8 a ++ utf8 b := by
  simp [utf8]

theorem utf8_length_le (s : List Char) : s.length ≤ (utf8 s).length := by
  induction s with
  | nil => simp [utf8]
  | cons c s ih =>
    rw [utf8_cons, List.length_append, List.length_cons]
    have h : 1 ≤ (String.utf8EncodeChar c).length := by
      rw [String.length_utf8EncodeChar]
      exact Char.utf8Size_pos c
    omega

theorem utf8_length_singleByte (s : List Char) (hs : ∀ c ∈ s, singleByte c) :
    (utf8 s).length = s.length := by
  induction s with
  | nil => simp [utf8]
  | cons c s ih =>
    rw [utf8_cons, List.length_append, List.length_cons]
    have h : (String.utf8EncodeChar c).length = 1 := hs c (List.mem_cons_self c s)
    have := ih (fun d hd => hs d (List.mem_cons_of_mem c hd))
    omega

theorem utf8_take_singleByte (s : List Char) (hs : ∀ c ∈ s, singleByte c) (n : Nat) :
    utf8 (s.take n) = (utf8 s).take n := by
  induction s generalizing n with
  | nil => simp [utf8]
  | cons c s ih =>
    cases n with
    | zero => simp [utf8]
    | succ n =>
      have h : (String.utf8EncodeChar c).length = 1 := hs c (List.mem_cons_self c s)
      obtain ⟨b, hb⟩ := List.length_eq_one.mp h
      rw [List.take_succ_cons, utf8_cons, utf8_cons, hb, List.singleton_append,
        List.singleton_append, List.take_succ_cons,
        ih (fun d hd => hs d (List.mem_cons_of_mem c hd))]

theorem lit_ellipsis : lit "..." = utf8 ['.', '.', '.'] := by
  decide

theorem lit_ellipsis_length : (lit "...").length = 3 := by
  decide

/-! ## truncate on bytes -/

theorem sliceTo_eq (s : GoString) (hi : Int) (h0 : 0 ≤ hi) (h1 : hi ≤ (s.length : Int)) :
    sliceTo s hi = some (s.take hi.toNat) := by
  simp [sliceTo, h0, h1]

theorem truncate_fits (s : GoString) (maxLen : Int) (h : (s.length : Int) ≤ maxLen) :
    truncate s maxLen = some s := by
  simp [truncate, h]

theorem truncate_small (s : GoString) (maxLen : Int) (h0 : 0 ≤ maxLen) (h3 : maxLen ≤ 3) :
    truncate s maxLen = some (s.take maxLen.toNat) := by
  by_cases h : (s.length : Int) ≤ maxLen
  · rw [truncate_fits s maxLen h, List.take_of_length_le]
    omega
  · rw [truncate, if_neg h, if_pos h3, sliceTo_eq s maxLen h0 (by omega)]

theorem truncate_cut (s : GoString) (maxLen : Int) (h3 : 3 < maxLen)
    (h : maxLen < (s.length : Int)) :
    truncate s maxLen = some (s.take (maxLen - 3).toNat ++ lit "...") := by
  rw [truncate, if_neg (by omega), if_neg (by omega),
    sliceTo_eq s (maxLen - 3) (by omega) (by omega)]
  rfl

theorem truncate_length_le (s r : GoString) (maxLen : Int) (h0 : 0 ≤ maxLen)
    (h : truncate s maxLen = some r) : (r.length : Int) ≤ maxLen := by
  by_cases hfit : (s.length : Int) ≤ maxLen
  · rw [truncate_fits s maxLen hfit] at h
    cases h
    exact hfit
  · by_cases h3 : maxLen ≤ 3
    · rw [truncate_small s maxLen h0 h3] at h
      cases h
      rw [List.length_take]
      omega
    · rw [truncate_cut s maxLen (by omega) (by omega)] at h
      cases h
      rw [List.length_append, List.length_take, lit_ellipsis_length]
      omega

theorem truncate_isSome (s : GoString) (maxLen : Int) (h0 : 0 ≤ maxLen) :
    ∃ r, truncate s maxLen = some r := by
  by_cases hfit : (s.length : Int) ≤ maxLen
  · exact ⟨s, truncate_fits s maxLen hfit⟩
  · by_cases h3 : maxLen ≤ 3
    · exact ⟨_, truncate_small s maxLen h0 h3⟩
    · exact ⟨_, truncate_cut s maxLen (by omega) (by omega)⟩

theorem formatNames_join (names : List GoString) (maxLen : Int) (h0 : 0 ≤ maxLen) :
    formatNames names maxLen = truncate (Join names (lit ", ")) maxLen := by
  cases names with
  | nil =>
    have h : truncate (Join [] (lit ", ")) maxLen = some [] :=
      truncate_fits [] maxLen (by simpa using h0)
    rw [h]
    rfl
  | cons a rest => simp [formatNames]

theorem chars_le_of_bytes_le (r : List Char) (b : GoString) (n : Nat)
    (hb : b.length ≤ n) (h : b = utf8 r) : r.length ≤ n := by
  have := utf8_length_le r
  rw [← h] at this
  omega

/-! ## The compact card projection in closed form -/

theorem ToCardDisplay_spec (card : Card) :
    ∃ d, ToCardDisplay card = some d ∧
      d.Num = card.Number ∧
      truncate card.Title 40 = some d.Title ∧
      d.Status = card.Status ∧
      (∀ desc, card.Description = some desc → desc ≠ [] →
        truncate desc 30 = some d.Desc) ∧
      ((card.Description = none ∨ card.Description = some []) → d.Desc = []) ∧
      (∀ b, card.Board = some b → truncate b.Name 20 = some d.Board) ∧
      (card.Board = none → d.Board = []) ∧
      formatNames (card.Tags.map Tag.Name) 15 = some d.Tags := by
  obtain ⟨t, ht⟩ := truncate_isSome card.Title 40 (by decide)
  obtain ⟨g, hg⟩ :=
    truncate_isSome (Join (card.Tags.map Tag.Name) (lit ", ")) 15 (by decide)
  have hf := formatNames_join (card.Tags.map Tag.Name) 15 (by decide)
  rw [hg] at hf
  rcases card with ⟨num, title, status, desc, board, tags, asg, gold, closed, created, url⟩
  simp only at ht hg hf
  cases desc with
  | none =>
    cases board with
    | none =>
      cases tags with
      | nil => simp [ToCardDisplay, ht, formatNames]
      | cons x xs =>
        simp only [List.map_cons] at hf
        simp [ToCardDisplay, ht, hf]
    | some b =>
      obtain ⟨tb, hb⟩ := truncate_isSome b.Name 20 (by decide)
      cases tags with
      | nil => simp [ToCardDisplay, ht, formatNames, hb]
      | cons x xs =>
        simp only [List.map_cons] at hf
        simp [ToCardDisplay, ht, hf, hb]
  | some d =>
    obtain ⟨td, hd⟩ := truncate_isSome d 30 (by decide)
    by_cases hne : d = []
    · subst hne
      cases board with
      | none =>
        cases tags with
        | nil => simp [ToCardDisplay, ht, formatNames]
        | cons x xs =>
          simp only [List.map_cons] at hf
          simp [ToCardDisplay, ht, hf]
      | some b =>
        obtain ⟨tb, hb⟩ := truncate_isSome b.Name 20 (by decide)
        cases tags with
        | nil => simp [ToCardDisplay, ht, formatNames, hb]
        | cons x xs =>
          simp only [List.map_cons] at hf
          simp [ToCardDisplay, ht, hf, hb]
    · cases board with
      | none =>
        cases tags with
        | nil => simp [ToCardDisplay, ht, formatNames, hd, hne]
        | cons x xs =>
          simp only [List.map_cons] at hf
          simp [ToCardDisplay, ht, hf, hd, hne]
      | some b =>
        obtain ⟨tb, hb⟩ := truncate_isSome b.Name 20 (by decide)
        cases tags with
        | nil => simp [ToCardDisplay, ht, formatNames, hb, hd, hne]
        | cons x xs =>
          simp only [List.map_cons] at hf
          simp [ToCardDisplay, ht, hf, hb, hd, hne]

theorem ToBoardDisplay_spec (board : Board) :
    ∃ d, ToBoardDisplay board = some d ∧
      truncate board.Name 30 = some d.Name ∧
      (∀ desc, board.Description = some desc → desc ≠ [] →
        truncate desc 40 = some d.Desc) ∧
      ((board.Description = none ∨ board.Description = some []) → d.Desc = []) ∧
      (board.AllAccess = true → d.Access = lit "all") ∧
      (board.AllAccess = false → d.Access = lit "restricted") := by
  obtain ⟨t, ht⟩ := truncate_isSome board.Name 30 (by decide)
  have hcr : ∀ u : User, ∃ r, truncate u.Name 20 = some r :=
    fun u => truncate_isSome u.Name 20 (by decide)
  have hds : ∀ ds : GoString, ∃ r, truncate ds 40 = some r :=
    fun ds => truncate_isSome ds 40 (by decide)
  rcases board with ⟨id, name, desc, access, creator, created, url⟩
  simp only at ht
  rcases desc with _ | ds <;> rcases access with _ | _ <;> rcases creator with _ | u
  case none.false.none => simp [ToBoardDisplay, ht]
  case none.true.none => simp [ToBoardDisplay, ht]
  case none.false.some =>
    obtain ⟨tu, hu⟩ := hcr u
    simp [ToBoardDisplay, ht, hu]
  case none.true.some =>
    obtain ⟨tu, hu⟩ := hcr u
    simp [ToBoardDisplay, ht, hu]
  case some.false.none =>
    obtain ⟨td, hd⟩ := hds ds
    by_cases hne : ds = [] <;> simp [ToBoardDisplay, ht, hd, hne]
  case some.true.none =>
    obtain ⟨td, hd⟩ := hds ds
    by_cases hne : ds = [] <;> simp [ToBoardDisplay, ht, hd, hne]
  case some.false.some =>
    obtain ⟨td, hd⟩ := hds ds
    obtain ⟨tu, hu⟩ := hcr u
    by_cases hne : ds = [] <;> simp [ToBoardDisplay, ht, hd, hu, hne]
  case some.true.some =>
    obtain ⟨td, hd⟩ := hds ds
    obtain ⟨tu, hu⟩ := hcr u
    by_cases hne : ds = [] <;> simp [ToBoardDisplay, ht, hd, hu, hne]

/-! ## Claims on truncate and formatNames -/

/-- C1: for a text of single-byte characters and a budget above three,
truncate returns the text unchanged when it fits, and otherwise its first
`maxLen - 3` characters followed by the three-character marker; the result
is never longer than the budget. -/
theorem truncate_single_byte_budget (s : List Char) (maxLen : Int)
    (hs : ∀ c ∈ s, singleByte c) (hn : 3 < maxLen) :
    (∃ r, truncate (utf8 s) maxLen = some r ∧ (r.length : Int) ≤ maxLen) ∧
    ((s.length : Int) ≤ maxLen → truncate (utf8 s) maxLen = some (utf8 s)) ∧
    (maxLen < (s.length : Int) →
      truncate (utf8 s) maxLen
        = some (utf8 (s.take (maxLen - 3).toNat ++ ['.', '.', '.']))) := by
  have hlen := utf8_length_singleByte s hs
  refine ⟨?_, ?_, ?_⟩
  · obtain ⟨r, hr⟩ := truncate_isSome (utf8 s) maxLen (by omega)
    exact ⟨r, hr, truncate_length_le (utf8 s) r maxLen (by omega) hr⟩
  · intro h
    exact truncate_fits (utf8 s) maxLen (by omega)
  · intro h
    rw [truncate_cut (utf8 s) maxLen hn (by omega), utf8_append,
      utf8_take_singleByte s hs, lit_ellipsis]

theorem truncate_single_byte_budget_witness :
    (∀ c ∈ "hello world".toList, singleByte c) ∧ (3 : Int) < 8 ∧
    ((∃ r, truncate (utf8 "hello world".toList) 8 = some r ∧ (r.length : Int) ≤ 8) ∧
    ((("hello world".toList).length : Int) ≤ 8 →
      truncate (utf8 "hello world".toList) 8 = some (utf8 "hello world".toList)) ∧
    ((8 : Int) < (("hello world".toList).length : Int) →
      truncate (utf8 "hello world".toList) 8
        = some (utf8 (("hello world".toList).take ((8 : Int) - 3).toNat
            ++ ['.', '.', '.'])))) :=
  ⟨by decide, by decide,
    truncate_single_byte_budget "hello world".toList 8 (by decide) (by decide)⟩

/-- For texts of single-byte characters and a budget between zero and three
truncate returns the first `maxLen` characters of the text (all of it when it
is shorter) and adds no marker, even when the text is longer. -/
theorem truncate_small_budget (s : List Char) (maxLen : Int)
    (hs : ∀ c ∈ s, singleByte c) (h0 : 0 ≤ maxLen) (h3 : maxLen ≤ 3) :
    truncate (utf8 s) maxLen = some (utf8 (s.take maxLen.toNat)) ∧
    ((s.length : Int) ≤ maxLen → truncate (utf8 s) maxLen = some (utf8 s)) := by
  refine ⟨?_, fun h => ?_⟩
  · rw [truncate_small (utf8 s) maxLen h0 h3, utf8_take_singleByte s hs]
  · exact truncate_fits (utf8 s) maxLen (by rw [utf8_length_singleByte s hs]; exact h)

theorem truncate_small_budget_witness :
    (∀ c ∈ "hello".toList, singleByte c) ∧ (0 : Int) ≤ 2 ∧ (2 : Int) ≤ 3 ∧
    (truncate (utf8 "hello".toList) 2
        = some (utf8 (("hello".toList).take (2 : Int).toNat)) ∧
      ((("hello".toList).length : Int) ≤ 2 →
        truncate (utf8 "hello".toList) 2 = some (utf8 "hello".toList))) :=
  ⟨by decide, by decide, by decide,
    truncate_small_budget "hello".toList 2 (by decide) (by decide) (by decide)⟩

/-- C2 at its failing input: the one-character text `é` is two bytes long;
with budget one, within which its one character fits, truncate does not
return it but the first byte of its encoding, half of the character. -/
theorem truncate_small_budget_multibyte :
    utf8 ['é'] = [0xC3, 0xA9] ∧
    truncate (utf8 ['é']) 1 = some [0xC3] ∧
    truncate (utf8 ['é']) 1 ≠ some (utf8 (['é'].take 1)) := by
  decide

/-- C3: for a non-negative budget formatNames is truncate applied to the
names joined with a comma and a space, and the empty sequence gives the empty
string. -/
theorem formatNames_eq_truncate_join (names : List GoString) (maxLen : Int)
    (h0 : 0 ≤ maxLen) :
    formatNames names maxLen = truncate (Join names (lit ", ")) maxLen ∧
    formatNames [] maxLen = some [] :=
  ⟨formatNames_join names maxLen h0, rfl⟩

theorem formatNames_eq_truncate_join_witness :
    (0 : Int) ≤ 7 ∧
    (formatNames [lit "bug", lit "urgent"] 7
        = truncate (Join [lit "bug", lit "urgent"] (lit ", ")) 7 ∧
      formatNames [] 7 = some []) :=
  ⟨by decide, formatNames_eq_truncate_join [lit "bug", lit "urgent"] 7 (by decide)⟩

/-! ## Claims on the card projections -/

/-- C4: ToCardDisplay returns a record whose Num is the card number, Title
is truncate(title, 40), Status is the status unchanged, Desc is
truncate(description, 30) when the description is present and non-empty,
Board is truncate(board name, 20) when a board is set, and Tags is the tag
names in order joined with a comma and a space and truncated to 15. -/
theorem ToCardDisplay_fields (card : Card) :
    ∃ d, ToCardDisplay card = some d ∧
      d.Num = card.Number ∧
      truncate card.Title 40 = some d.Title ∧
      d.Status = card.Status ∧
      (∀ desc, card.Description = some desc → desc ≠ [] →
        truncate desc 30 = some d.Desc) ∧
      (∀ b, card.Board = some b → truncate b.Name 20 = some d.Board) ∧
      truncate (Join (card.Tags.map Tag.Name) (lit ", ")) 15 = some d.Tags := by
  obtain ⟨d, hd, h1, h2, h3, h4, -, h6, -, h8⟩ := ToCardDisplay_spec card
  refine ⟨d, hd, h1, h2, h3, h4, h6, ?_⟩
  rw [← formatNames_join (card.Tags.map Tag.Name) 15 (by decide)]
  exact h8

/-- C5: every bounded field of the compact card record is within its
budget: Title at most 40, Desc at most 30, Board at most 20 and Tags at most
15, counted in bytes and therefore also in characters of any text the field
encodes. -/
theorem ToCardDisplay_budgets (card : Card) :
    ∃ d, ToCardDisplay card = some d ∧
      (d.Title.length ≤ 40 ∧ d.Desc.length ≤ 30 ∧
        d.Board.length ≤ 20 ∧ d.Tags.length ≤ 15) ∧
      (∀ r, d.Title = utf8 r → r.length ≤ 40) ∧
      (∀ r, d.Desc = utf8 r → r.length ≤ 30) ∧
      (∀ r, d.Board = utf8 r → r.length ≤ 20) ∧
      (∀ r, d.Tags = utf8 r → r.length ≤ 15) := by
  obtain ⟨d, hd, -, h2, -, h4, h5, h6, h7, h8⟩ := ToCardDisplay_spec card
  have hT : d.Title.length ≤ 40 := by
    have := truncate_length_le card.Title d.Title 40 (by decide) h2
    omega
  have hD : d.Desc.length ≤ 30 := by
    cases hdesc : card.Description with
    | none => simp [h5 (Or.inl hdesc)]
    | some ds =>
      by_cases hne : ds = []
      · subst hne
        simp [h5 (Or.inr hdesc)]
      · have := truncate_length_le ds d.Desc 30 (by decide) (h4 ds hdesc hne)
        omega
  have hB : d.Board.length ≤ 20 := by
    cases hb : card.Board with
    | none => simp [h7 hb]
    | some b =>
      have := truncate_length_le b.Name d.Board 20 (by decide) (h6 b hb)
      omega
  have hG : d.Tags.length ≤ 15 := by
    rw [formatNames_join (card.Tags.map Tag.Name) 15 (by decide)] at h8
    have := truncate_length_le _ d.Tags 15 (by decide) h8
    omega
  exact ⟨d, hd, ⟨hT, hD, hB, hG⟩,
    fun r h => chars_le_of_bytes_le r d.Title 40 hT h,
    fun r h => chars_le_of_bytes_le r d.Desc 30 hD h,
    fun r h => chars_le_of_bytes_le r d.Board 20 hB h,
    fun r h => chars_le_of_bytes_le r d.Tags 15 hG h⟩

/-- C6: a card whose description is unset or empty gets an empty Desc, a
card with no board an empty Board, a card with no tags an empty Tags; in
none of these cases is the field a placeholder such as nil or null. -/
theorem ToCardDisplay_absent_fields (card : Card) :
    ∃ d, ToCardDisplay card = some d ∧
      ((card.Description = none ∨ card.Description = some []) →
        d.Desc = [] ∧ d.Desc ≠ lit "nil" ∧ d.Desc ≠ lit "null") ∧
      (card.Board = none →
        d.Board = [] ∧ d.Board ≠ lit "nil" ∧ d.Board ≠ lit "null") ∧
      (card.Tags = [] →
        d.Tags = [] ∧ d.Tags ≠ lit "nil" ∧ d.Tags ≠ lit "null") := by
  obtain ⟨d, hd, -, -, -, -, h5, -, h7, h8⟩ := ToCardDisplay_spec card
  have e1 : ([] : GoString) ≠ lit "nil" := by decide
  have e2 : ([] : GoString) ≠ lit "null" := by decide
  refine ⟨d, hd, ?_, ?_, ?_⟩
  · intro h
    rw [h5 h]
    exact ⟨rfl, e1, e2⟩
  · intro h
    rw [h7 h]
    exact ⟨rfl, e1, e2⟩
  · intro h
    rw [h] at h8
    have h9 : d.Tags = [] := by
      simpa [formatNames] using h8.symm
    rw [h9]
    exact ⟨rfl, e1, e2⟩

/-- C7: ToCardDetailDisplay copies number, title, status, golden flag,
closed flag and URL unchanged, copies description and board name untruncated
when present, joins assignee names and tag names in order with a comma and a
space without truncation, and sets Created to the creation time written as
year-month-day, a space, hour:minute, each part zero-padded. -/
theorem ToCardDetailDisplay_fields (card : Card) :
    (ToCardDetailDisplay card).Number = card.Number ∧
    (ToCardDetailDisplay card).Title = card.Title ∧
    (ToCardDetailDisplay card).Status = card.Status ∧
    (ToCardDetailDisplay card).Golden = card.Golden ∧
    (ToCardDetailDisplay card).Closed = card.Closed ∧
    (ToCardDetailDisplay card).URL = card.URL ∧
    (∀ desc, card.Description = some desc →
      (ToCardDetailDisplay card).Description = desc) ∧
    (∀ b, card.Board = some b → (ToCardDetailDisplay card).Board = b.Name) ∧
    (ToCardDetailDisplay card).Assignees
      = Join (card.Assignees.map User.Name) (lit ", ") ∧
    (ToCardDetailDisplay card).Tags = Join (card.Tags.map Tag.Name) (lit ", ") ∧
    (ToCardDetailDisplay card).Created
      = utf8 (appendInt card.CreatedAt.year 4 ++ '-' ::
          (appendInt card.CreatedAt.month 2 ++ '-' ::
          (appendInt card.CreatedAt.day 2 ++ ' ' ::
          (appendInt card.CreatedAt.hour 2 ++ ':' ::
          appendInt card.CreatedAt.minute 2)))) := by
  rcases card with ⟨num, title, status, desc, board, tags, asg, gold, closed, created, url⟩
  rcases desc with _ | ds <;> rcases board with _ | b <;>
    rcases tags with _ | ⟨tg, tgs⟩ <;> rcases asg with _ | ⟨a, as⟩
  all_goals first
    | (simp [ToCardDetailDisplay, Time.Format, Join]; done)
    | (by_cases hne : ds = [] <;>
        simp [ToCardDetailDisplay, Time.Format, Join, hne])

/-! ## Claims on the board projections -/

/-- C8: ToBoardDisplay returns Name as truncate(name, 30), Desc as
truncate(description, 40) when the description is present and non-empty and
the empty string otherwise, and Access as the label all when the all-access
flag is true and restricted when it is false. -/
theorem ToBoardDisplay_fields (board : Board) :
    ∃ d, ToBoardDisplay board = some d ∧
      truncate board.Name 30 = some d.Name ∧
      (∀ desc, board.Description = some desc → desc ≠ [] →
        truncate desc 40 = some d.Desc) ∧
      ((board.Description = none ∨ board.Description = some []) → d.Desc = []) ∧
      (board.AllAccess = true → d.Access = lit "all") ∧
      (board.AllAccess = false → d.Access = lit "restricted") :=
  ToBoardDisplay_spec board

/-- C9, as the code has it: the compact board projection carries the access
label, all for true and restricted for false, while the detail projection
copies the all-access boolean itself into its AllAccess field and keeps name
and description untruncated. -/
theorem board_projections_access (board : Board) :
    (∃ d, ToBoardDisplay board = some d ∧
      (board.AllAccess = true → d.Access = lit "all") ∧
      (board.AllAccess = false → d.Access = lit "restricted")) ∧
    (ToBoardDetailDisplay board).AllAccess = board.AllAccess ∧
    (ToBoardDetailDisplay board).Name = board.Name ∧
    (∀ desc, board.Description = some desc →
      (ToBoardDetailDisplay board).Description = desc) := by
  obtain ⟨d, hd, -, -, -, h4, h5⟩ := ToBoardDisplay_spec board
  refine ⟨⟨d, hd, h4, h5⟩, ?_⟩
  rcases board with ⟨id, name, desc, access, creator, created, url⟩
  rcases desc with _ | ds <;> rcases creator with _ | u
  all_goals first
    | (by_cases hu : url = [] <;>
        simp [ToBoardDetailDisplay, hu]; done)
    | (by_cases hu : url = [] <;> by_cases hne : ds = [] <;>
        simp [ToBoardDetailDisplay, hu, hne])

/-- C9 as stated fails on the detail projection: for an all-access board the
detail record holds the boolean true in AllAccess, and none of its text
fields is the label all. -/
theorem ToBoardDetailDisplay_no_access_label :
    (ToBoardDetailDisplay
      { ID := lit "b1", Name := lit "Roadmap", Description := none,
        AllAccess := true, Creator := none,
        CreatedAt := { year := 2024, month := 3, day := 7, hour := 9, minute := 5 },
        URL := [] })
      = { ID := lit "b1", Name := lit "Roadmap", Description := [],
          AllAccess := true, Creator := [],
          Created := lit "2024-03-07 09:05", URL := [] } ∧
    lit "all" ∉ [lit "b1", lit "Roadmap", [], [], lit "2024-03-07 09:05", []] := by
  decide

/-! ## Claims on the format selector -/

/-- C10: NewFormatter fails exactly when the format is none of table, the
empty string, json and yaml; table and the empty string give the table
renderer, json the JSON renderer, yaml the YAML renderer, each holding the
given sink (the standard output when the sink is nil); matching is exact, so
JSON, Table and json with a leading space are rejected. -/
theorem NewFormatter_selects {W : Type} (stdout : W) (format : GoString)
    (writer : Option W) :
    ((∃ e, NewFormatter stdout format writer = Except.error e) ↔
      (format ≠ lit "table" ∧ format ≠ lit "" ∧ format ≠ lit "json" ∧
        format ≠ lit "yaml")) ∧
    ((format = lit "table" ∨ format = lit "") →
      NewFormatter stdout format writer
        = Except.ok (Formatter.TableFormatter (writer.getD stdout))) ∧
    (format = lit "json" →
      NewFormatter stdout format writer
        = Except.ok (Formatter.JSONFormatter (writer.getD stdout))) ∧
    (format = lit "yaml" →
      NewFormatter stdout format writer
        = Except.ok (Formatter.YAMLFormatter (writer.getD stdout))) ∧
    (∀ w : W, (some w).getD stdout = w) ∧
    (∃ e, NewFormatter stdout (lit "JSON") writer = Except.error e) ∧
    (∃ e, NewFormatter stdout (lit "Table") writer = Except.error e) ∧
    (∃ e, NewFormatter stdout (lit " json") writer = Except.error e) := by
  have hw : (match writer with
      | none => stdout
      | some w => w) = writer.getD stdout := by
    cases writer <;> rfl
  have n1 : lit "json" ≠ lit "table" := by decide
  have n2 : lit "json" ≠ lit "" := by decide
  have n3 : lit "yaml" ≠ lit "table" := by decide
  have n4 : lit "yaml" ≠ lit "" := by decide
  have n5 : lit "yaml" ≠ lit "json" := by decide
  have rej : ∀ f : GoString, f ≠ lit "table" → f ≠ lit "" → f ≠ lit "json" →
      f ≠ lit "yaml" → ∃ e, NewFormatter stdout f writer = Except.error e := by
    intro f h1 h2 h3 h4
    refine ⟨lit "unsupported format: " ++ f ++ lit " (supported: table, json, yaml)", ?_⟩
    simp [NewFormatter, h1, h2, h3, h4]
  refine ⟨⟨?_, ?_⟩, ?_, ?_, ?_, fun w => rfl, ?_, ?_, ?_⟩
  · rintro ⟨e, he⟩
    by_cases h1 : format = lit "table"
    · simp [NewFormatter, h1] at he
    by_cases h2 : format = lit ""
    · simp [NewFormatter, h2] at he
    by_cases h3 : format = lit "json"
    · simp [NewFormatter, h3, n1, n2] at he
    by_cases h4 : format = lit "yaml"
    · simp [NewFormatter, h4, n3, n4, n5] at he
    exact ⟨h1, h2, h3, h4⟩
  · rintro ⟨h1, h2, h3, h4⟩
    exact rej format h1 h2 h3 h4
  · intro h
    simp only [NewFormatter, hw, if_pos h]
  · intro h
    subst h
    simp [NewFormatter, hw, n1, n2]
  · intro h
    subst h
    simp [NewFormatter, hw, n3, n4, n5]
  · exact rej _ (by decide) (by decide) (by decide) (by decide)
  · exact rej _ (by decide) (by decide) (by decide) (by decide)
  · exact rej _ (by decide) (by decide) (by decide) (by decide)

/-! ## The table renderer in closed form -/

theorem foldl_exported {β : Type} (g : StructField Value → β)
    (fields : List (StructField Value)) (acc : List β) :
    fields.foldl (fun acc f => if !f.IsExported then acc else acc ++ [g f]) acc
      = acc ++ (visibleFields fields).map g := by
  induction fields generalizing acc with
  | nil => simp [visibleFields]
  | cons f fs ih =>
    rw [List.foldl_cons, ih]
    cases h : f.IsExported <;> simp [visibleFields, List.filter, h]

theorem foldl_append_exported (g : StructField Value → List GoString)
    (fields : List (StructField Value)) (t : Table) :
    fields.foldl (fun t f => if !f.IsExported then t else t.Append (g f)) t
      = { header := t.header, rows := t.rows ++ (visibleFields fields).map g } := by
  induction fields generalizing t with
  | nil => simp [visibleFields]
  | cons f fs ih =>
    rw [List.foldl_cons, ih]
    cases h : f.IsExported <;> simp [visibleFields, List.filter, h, Table.Append]

theorem getHeaders_struct (fields : List (StructField Value)) :
    getHeaders (some (Value.struct fields))
      = ((visibleFields fields).map (fun f => f.Name), none) := by
  have h := foldl_exported (fun f => f.Name) fields []
  simp only [List.nil_append] at h
  simp only [getHeaders, deref]
  rw [h]

theorem getRow_struct (env : Env) (fields : List (StructField Value)) :
    getRow env (some (Value.struct fields))
      = some ((visibleFields fields).map (cellText env), none) := by
  have h := foldl_exported (cellText env) fields []
  simp only [List.nil_append] at h
  simp only [getRow, deref]
  rw [← h]
  rfl

theorem isRecord_cases (e : Value) (h : isRecord e = true) :
    e = Value.struct (recordFields e) ∨ e = Value.ptr (some (Value.struct (recordFields e))) := by
  cases e with
  | struct fs => exact Or.inl rfl
  | ptr elem =>
    cases elem with
    | none => simp [isRecord] at h
    | some v =>
      cases v <;> first | (simp [isRecord] at h; done) | exact Or.inr rfl
  | _ => simp [isRecord] at h

theorem getHeaders_record (e : Value) (h : isRecord e = true) :
    getHeaders (some e)
      = ((visibleFields (recordFields e)).map (fun f => f.Name), none) := by
  rcases isRecord_cases e h with he | he
  · rw [he]
    exact getHeaders_struct _
  · rw [he]
    exact getHeaders_struct _

theorem getRow_record (env : Env) (e : Value) (h : isRecord e = true) :
    getRow env (some e)
      = some ((visibleFields (recordFields e)).map (cellText env), none) := by
  rcases isRecord_cases e h with he | he
  · rw [he]
    exact getRow_struct env _
  · rw [he]
    exact getRow_struct env _

theorem appendRows_records (env : Env) (elems : List Value) (t : Table)
    (h : ∀ e ∈ elems, isRecord e = true) :
    appendRows env elems t
      = some (Except.ok
          { header := t.header
            rows := t.rows ++ elems.map
              (fun e => (visibleFields (recordFields e)).map (cellText env)) }) := by
  induction elems generalizing t with
  | nil => simp [appendRows]
  | cons e es ih =>
    rw [appendRows, getRow_record env e (h e (List.mem_cons_self e es))]
    simp only
    rw [ih _ (fun x hx => h x (List.mem_cons_of_mem e hx))]
    simp [Table.Append]

theorem formatSingle_struct (env : Env) (w : Sink) (data : Value)
    (h : isRecord data = true) :
    formatSingle env w (some data)
      = some (env.Render
          { header := [lit "Field", lit "Value"]
            rows := (visibleFields (recordFields data)).map
              (fun f => [f.Name, cellText env f]) } w) := by
  have key : ∀ fields : List (StructField Value),
      formatSingle env w (some (Value.struct fields))
        = some (env.Render
          { header := [lit "Field", lit "Value"]
            rows := (visibleFields fields).map (fun f => [f.Name, cellText env f]) } w)
      ∧ formatSingle env w (some (Value.ptr (some (Value.struct fields))))
        = some (env.Render
          { header := [lit "Field", lit "Value"]
            rows := (visibleFields fields).map (fun f => [f.Name, cellText env f]) } w) := by
    intro fields
    have hf := foldl_append_exported (fun f => [f.Name, cellText env f]) fields
      (NewWriter.Header [lit "Field", lit "Value"])
    simp only [NewWriter, Table.Header, List.nil_append] at hf
    constructor
    · simp only [formatSingle, deref, NewWriter, Table.Header]
      rw [← hf]
      rfl
    · simp only [formatSingle, deref, NewWriter, Table.Header]
      rw [← hf]
      rfl
  rcases isRecord_cases data h with he | he
  · rw [he]
    exact (key _).1
  · rw [he]
    exact (key _).2

/-! ## Claims on the error of the format selector -/

/-- C11: for an unrecognised format identifier NewFormatter returns no
renderer but an error whose message is `unsupported format: `, the identifier
itself, then ` (supported: table, json, yaml)`; the message so contains the
identifier and the list of the three valid choices.  The selector is a pure
function of an abstract sink: it performs no write. -/
theorem NewFormatter_unsupported {W : Type} (stdout : W) (f : GoString)
    (writer : Option W)
    (h : f ≠ lit "table" ∧ f ≠ lit "" ∧ f ≠ lit "json" ∧ f ≠ lit "yaml") :
    NewFormatter stdout f writer
      = Except.error
          (lit "unsupported format: " ++ f ++ lit " (supported: table, json, yaml)") ∧
    (∀ r, NewFormatter stdout f writer ≠ Except.ok r) ∧
    f <:+: lit "unsupported format: " ++ f ++ lit " (supported: table, json, yaml)" ∧
    lit "table, json, yaml"
      <:+: lit "unsupported format: " ++ f ++ lit " (supported: table, json, yaml)" := by
  obtain ⟨h1, h2, h3, h4⟩ := h
  have he : NewFormatter stdout f writer
      = Except.error
          (lit "unsupported format: " ++ f ++ lit " (supported: table, json, yaml)") := by
    simp [NewFormatter, h1, h2, h3, h4]
  refine ⟨he, ?_, ?_, ?_⟩
  · intro r hr
    rw [he] at hr
    cases hr
  · exact ⟨lit "unsupported format: ", lit " (supported: table, json, yaml)", rfl⟩
  · refine ⟨lit "unsupported format: " ++ f ++ lit " (supported: ", lit ")", ?_⟩
    have hs : lit " (supported: table, json, yaml)"
        = lit " (supported: " ++ lit "table, json, yaml" ++ lit ")" := by decide
    rw [hs]
    simp [List.append_assoc]

theorem NewFormatter_unsupported_witness :
    (lit "csv" ≠ lit "table" ∧ lit "csv" ≠ lit "" ∧ lit "csv" ≠ lit "json" ∧
      lit "csv" ≠ lit "yaml") ∧
    (NewFormatter (W := Sink) ⟨[], none⟩ (lit "csv") none
      = Except.error
          (lit "unsupported format: " ++ lit "csv"
            ++ lit " (supported: table, json, yaml)") ∧
    (∀ r, NewFormatter (W := Sink) ⟨[], none⟩ (lit "csv") none ≠ Except.ok r) ∧
    lit "csv" <:+: lit "unsupported format: " ++ lit "csv"
      ++ lit " (supported: table, json, yaml)" ∧
    lit "table, json, yaml"
      <:+: lit "unsupported format: " ++ lit "csv"
        ++ lit " (supported: table, json, yaml)") :=
  ⟨by decide, NewFormatter_unsupported ⟨[], none⟩ (lit "csv") none (by decide)⟩

/-! ## Claims on the table renderer -/

/-- C12: for an empty collection the table renderer makes one write, of the
line `No results found` followed by a newline, renders no table and returns
success; on a sink that accepts the write its content grows by exactly that
line. -/
theorem Format_empty_collection (env : Env) (w : Sink) :
    TableFormatter.Format env w (some (Value.slice []))
      = some ((w.Write (lit "No results found\n")).1, none) ∧
    (w.failure = none →
      TableFormatter.Format env w (some (Value.slice []))
        = some ({ written := w.written ++ lit "No results found\n", failure := none },
            none)) := by
  refine ⟨rfl, fun h => ?_⟩
  rcases w with ⟨written, failure⟩
  simp only at h
  subst h
  rfl

/-- C13: for a non-empty collection of N records the table renderer hands to
the table library exactly one header row, the exported field names of the
first record in declaration order, followed by exactly N data rows, one per
element in the collection's order. -/
theorem Format_collection_rows (env : Env) (w : Sink) (first : Value)
    (rest : List Value) (h : ∀ e ∈ first :: rest, isRecord e = true) :
    TableFormatter.Format env w (some (Value.slice (first :: rest)))
      = some (env.Render
          { header := (visibleFields (recordFields first)).map (fun f => f.Name)
            rows := (first :: rest).map
              (fun e => (visibleFields (recordFields e)).map (cellText env)) } w) ∧
    ((first :: rest).map
      (fun e => (visibleFields (recordFields e)).map (cellText env))).length
        = (first :: rest).length := by
  refine ⟨?_, List.length_map _ _⟩
  have hh := getHeaders_record first (h first (List.mem_cons_self first rest))
  have hr := appendRows_records env (first :: rest)
    (NewWriter.Header ((visibleFields (recordFields first)).map (fun f => f.Name))) h
  simp only [TableFormatter.Format, List.length_cons, Nat.add_one_ne_zero, if_false,
    formatSlice, hh, hr]
  simp [NewWriter, Table.Header]

theorem Format_collection_rows_witness :
    (∀ e ∈ sampleRecord :: [Value.ptr (some sampleRecord)], isRecord e = true) ∧
    (TableFormatter.Format sampleEnv emptySink
        (some (Value.slice (sampleRecord :: [Value.ptr (some sampleRecord)])))
      = some (sampleEnv.Render
          { header := (visibleFields (recordFields sampleRecord)).map (fun f => f.Name)
            rows := (sampleRecord :: [Value.ptr (some sampleRecord)]).map
              (fun e => (visibleFields (recordFields e)).map (cellText sampleEnv)) }
          emptySink) ∧
    ((sampleRecord :: [Value.ptr (some sampleRecord)]).map
      (fun e => (visibleFields (recordFields e)).map (cellText sampleEnv))).length
        = (sampleRecord :: [Value.ptr (some sampleRecord)]).length) :=
  ⟨by decide,
    Format_collection_rows sampleEnv emptySink sampleRecord
      [Value.ptr (some sampleRecord)] (by decide)⟩

theorem Format_record (env : Env) (w : Sink) (data : Value)
    (h : isRecord data = true) :
    TableFormatter.Format env w (some data) = formatSingle env w (some data) := by
  rcases isRecord_cases data h with he | he <;> rw [he] <;> rfl

theorem cellText_plain (env : Env) (f : StructField Value)
    (h : Contains (ToLower env.mapLower f.Name) (lit "status") = false) :
    cellText env f = env.Sprint f.Value.Interface := by
  simp [cellText, stringForm, h]

theorem cellText_status (env : Env) (f : StructField Value)
    (h : Contains (ToLower env.mapLower f.Name) (lit "status") = true) :
    cellText env f = colorizeStatus env (env.Sprint f.Value.Interface) := by
  simp [cellText, stringForm, h]

/-- C14, as the code has it: for a structured record or a pointer to one the
table renderer builds a table with header Field, Value and one row per
exported field in declaration order; the first cell is the field name, the
second is the string form of the field value, passed through colorizeStatus
when the lower-cased field name contains `status`. -/
theorem Format_single_record (env : Env) (w : Sink) (data : Value)
    (h : isRecord data = true) :
    TableFormatter.Format env w (some data)
      = some (env.Render
          { header := [lit "Field", lit "Value"]
            rows := (visibleFields (recordFields data)).map
              (fun f => [f.Name, cellText env f]) } w) ∧
    (∀ f : StructField Value,
      (Contains (ToLower env.mapLower f.Name) (lit "status") = false →
        cellText env f = env.Sprint f.Value.Interface) ∧
      (Contains (ToLower env.mapLower f.Name) (lit "status") = true →
        cellText env f = colorizeStatus env (env.Sprint f.Value.Interface))) := by
  refine ⟨?_, fun f => ⟨cellText_plain env f, cellText_status env f⟩⟩
  rw [Format_record env w data h]
  exact formatSingle_struct env w data h

theorem Format_single_record_witness :
    isRecord (Value.ptr (some sampleRecord)) = true ∧
    (TableFormatter.Format sampleEnv emptySink (some (Value.ptr (some sampleRecord)))
      = some (sampleEnv.Render
          { header := [lit "Field", lit "Value"]
            rows := (visibleFields (recordFields (Value.ptr (some sampleRecord)))).map
              (fun f => [f.Name, cellText sampleEnv f]) } emptySink) ∧
    (∀ f : StructField Value,
      (Contains (ToLower sampleEnv.mapLower f.Name) (lit "status") = false →
        cellText sampleEnv f = sampleEnv.Sprint f.Value.Interface) ∧
      (Contains (ToLower sampleEnv.mapLower f.Name) (lit "status") = true →
        cellText sampleEnv f
          = colorizeStatus sampleEnv (sampleEnv.Sprint f.Value.Interface)))) :=
  ⟨by decide,
    Format_single_record sampleEnv emptySink (Value.ptr (some sampleRecord)) (by decide)⟩

set_option maxRecDepth 4096 in
/-- C14 as stated fails with colour enabled: the second cell of the Status
row of a record whose status is `open` is the green wrapper around `open`,
not the string form `open` of the field value. -/
theorem Format_single_record_status_cell :
    TableFormatter.Format sampleEnv emptySink (some sampleRecord)
      = some (sampleEnv.Render
          { header := [lit "Field", lit "Value"]
            rows := [[lit "Number", lit "7"],
              [lit "Title", lit "failed to open"],
              [lit "Status", lit "\x1b[32mopen\x1b[0m"]] } emptySink) ∧
    sampleEnv.Sprint (some (Value.string (lit "open"))) = lit "open" ∧
    lit "\x1b[32mopen\x1b[0m" ≠ lit "open" := by
  decide

/-- C15, as the code has it: for a singleton that is neither a collection
nor a structured record nor a pointer to one, the table renderer builds no
table; it makes one write, of the value's string form followed by a newline,
and returns success. -/
theorem Format_single_scalar (env : Env) (w : Sink) (data : Value)
    (hs : Kind.of (some data) ≠ Kind.Slice)
    (hr : Kind.of (deref (some data)) ≠ Kind.Struct) :
    TableFormatter.Format env w (some data)
      = some ((w.Write (env.Sprint (some data) ++ lit "\n")).1, none) := by
  cases data with
  | slice elems => simp [Kind.of] at hs
  | struct fields => simp [Kind.of, deref] at hr
  | ptr elem =>
    cases elem with
    | none => rfl
    | some v =>
      cases v with
      | struct fields => simp [Kind.of, deref] at hr
      | _ => rfl
  | _ => rfl

theorem Format_single_scalar_witness :
    Kind.of (some (Value.string (lit "hello"))) ≠ Kind.Slice ∧
    Kind.of (deref (some (Value.string (lit "hello")))) ≠ Kind.Struct ∧
    TableFormatter.Format sampleEnv emptySink (some (Value.string (lit "hello")))
      = some ((emptySink.Write
          (sampleEnv.Sprint (some (Value.string (lit "hello"))) ++ lit "\n")).1, none) :=
  ⟨by decide, by decide,
    Format_single_scalar sampleEnv emptySink (Value.string (lit "hello"))
      (by decide) (by decide)⟩

set_option maxRecDepth 4096 in
/-- C15 as stated fails: for the plain string `hello` the table renderer
writes the line `hello` alone, while a table with header Value and the one
row `hello` would render as two lines. -/
theorem Format_single_scalar_no_table :
    TableFormatter.Format sampleEnv emptySink (some (Value.string (lit "hello")))
      = some ({ written := lit "hello\n", failure := none }, none) ∧
    sampleEnv.Render { header := [lit "Value"], rows := [[lit "hello"]] } emptySink
      = ({ written := lit "Value\nhello\n", failure := none }, none) ∧
    TableFormatter.Format sampleEnv emptySink (some (Value.string (lit "hello")))
      ≠ some (sampleEnv.Render
          { header := [lit "Value"], rows := [[lit "hello"]] } emptySink) := by
  decide

/-- C16: a field of a record is rendered if and only if it is exported:
getHeaders, getRow and formatSingle each emit one entry for every exported
field, in declaration order, and none for an unexported field. -/
theorem exported_fields_only (env : Env) (w : Sink)
    (fields : List (StructField Value)) :
    getHeaders (some (Value.struct fields))
      = ((visibleFields fields).map (fun f => f.Name), none) ∧
    getRow env (some (Value.struct fields))
      = some ((visibleFields fields).map (cellText env), none) ∧
    formatSingle env w (some (Value.struct fields))
      = some (env.Render
          { header := [lit "Field", lit "Value"]
            rows := (visibleFields fields).map (fun f => [f.Name, cellText env f]) }
          w) ∧
    (∀ f, f ∈ visibleFields fields ↔ f ∈ fields ∧ f.IsExported = true) ∧
    (visibleFields fields).Sublist fields ∧
    (visibleFields fields).length = fields.countP (fun f => f.IsExported) := by
  refine ⟨getHeaders_struct fields, getRow_struct env fields,
    formatSingle_struct env w (Value.struct fields) rfl, fun f => ?_, ?_, ?_⟩
  · simp [visibleFields, List.mem_filter]
  · exact List.filter_sublist fields
  · simp [visibleFields, List.countP_eq_length_filter]

/-! ## Claims on colour -/

theorem colorizeStatus_enabled (env : Env) (h : env.NoColor = false) (x : GoString) :
    colorizeStatus env x =
      if Contains (ToLower env.mapLower x) (lit "open")
          || Contains (ToLower env.mapLower x) (lit "active") then
        env.GreenString x
      else if Contains (ToLower env.mapLower x) (lit "closed")
          || Contains (ToLower env.mapLower x) (lit "completed") then
        env.BlueString x
      else if Contains (ToLower env.mapLower x) (lit "error")
          || Contains (ToLower env.mapLower x) (lit "failed") then
        env.RedString x
      else if Contains (ToLower env.mapLower x) (lit "pending")
          || Contains (ToLower env.mapLower x) (lit "waiting") then
        env.YellowString x
      else x := by
  simp [colorizeStatus, h]

theorem ToLower_ascii (m : GoString → GoString) (s : GoString)
    (h : s.all (fun c => c < 0x80) = true) : ToLower m s = asciiLower s := by
  simp only [ToLower, h, if_true]

/-- C17: with colour enabled colorizeStatus tests the lower-cased text for
keywords in a fixed order and the first match wins: open or active gives the
green wrapper; else closed or completed gives blue; else error or failed
gives red; else pending or waiting gives yellow; else the text is returned
unmodified.  A text with both open and closed is green, `OPEN` is green and
`weird-status` is unchanged. -/
theorem colorizeStatus_order (env : Env) (h : env.NoColor = false) (x : GoString) :
    ((mentions env x "open" || mentions env x "active") = true →
      colorizeStatus env x = env.GreenString x) ∧
    ((mentions env x "open" || mentions env x "active") = false →
      (mentions env x "closed" || mentions env x "completed") = true →
      colorizeStatus env x = env.BlueString x) ∧
    ((mentions env x "open" || mentions env x "active") = false →
      (mentions env x "closed" || mentions env x "completed") = false →
      (mentions env x "error" || mentions env x "failed") = true →
      colorizeStatus env x = env.RedString x) ∧
    ((mentions env x "open" || mentions env x "active") = false →
      (mentions env x "closed" || mentions env x "completed") = false →
      (mentions env x "error" || mentions env x "failed") = false →
      (mentions env x "pending" || mentions env x "waiting") = true →
      colorizeStatus env x = env.YellowString x) ∧
    ((mentions env x "open" || mentions env x "active") = false →
      (mentions env x "closed" || mentions env x "completed") = false →
      (mentions env x "error" || mentions env x "failed") = false →
      (mentions env x "pending" || mentions env x "waiting") = false →
      colorizeStatus env x = x) ∧
    (mentions env x "open" = true → mentions env x "closed" = true →
      colorizeStatus env x = env.GreenString x) ∧
    colorizeStatus env (lit "OPEN") = env.GreenString (lit "OPEN") ∧
    colorizeStatus env (lit "weird-status") = lit "weird-status" := by
  have hc := colorizeStatus_enabled env h
  have hOpen : ToLower env.mapLower (lit "OPEN") = lit "open" := by
    rw [ToLower_ascii _ _ (by decide)]
    decide
  have hWeird : ToLower env.mapLower (lit "weird-status") = lit "weird-status" := by
    rw [ToLower_ascii _ _ (by decide)]
    decide
  simp only [mentions]
  refine ⟨?_, ?_, ?_, ?_, ?_, ?_, ?_, ?_⟩
  · intro hg
    rw [hc x, if_pos hg]
  · intro hg hb
    rw [hc x, if_neg (by simp [hg]), if_pos hb]
  · intro hg hb hr
    rw [hc x, if_neg (by simp [hg]), if_neg (by simp [hb]), if_pos hr]
  · intro hg hb hr hy
    rw [hc x, if_neg (by simp [hg]), if_neg (by simp [hb]), if_neg (by simp [hr]),
      if_pos hy]
  · intro hg hb hr hy
    rw [hc x, if_neg (by simp [hg]), if_neg (by simp [hb]), if_neg (by simp [hr]),
      if_neg (by simp [hy])]
  · intro ho _
    rw [hc x, if_pos (by simp [ho])]
  · rw [hc, hOpen]
    rfl
  · rw [hc, hWeird]
    rfl

theorem colorizeStatus_order_witness :
    sampleEnv.NoColor = false ∧
    (((mentions sampleEnv (lit "reopened, closed") "open"
        || mentions sampleEnv (lit "reopened, closed") "active") = true →
      colorizeStatus sampleEnv (lit "reopened, closed")
        = sampleEnv.GreenString (lit "reopened, closed")) ∧
    ((mentions sampleEnv (lit "reopened, closed") "open"
        || mentions sampleEnv (lit "reopened, closed") "active") = false →
      (mentions sampleEnv (lit "reopened, closed") "closed"
        || mentions sampleEnv (lit "reopened, closed") "completed") = true →
      colorizeStatus sampleEnv (lit "reopened, closed")
        = sampleEnv.BlueString (lit "reopened, closed")) ∧
    ((mentions sampleEnv (lit "reopened, closed") "open"
        || mentions sampleEnv (lit "reopened, closed") "active") = false →
      (mentions sampleEnv (lit "reopened, closed") "closed"
        || mentions sampleEnv (lit "reopened, closed") "completed") = false →
      (mentions sampleEnv (lit "reopened, closed") "error"
        || mentions sampleEnv (lit "reopened, closed") "failed") = true →
      colorizeStatus sampleEnv (lit "reopened, closed")
        = sampleEnv.RedString (lit "reopened, closed")) ∧
    ((mentions sampleEnv (lit "reopened, closed") "open"
        || mentions sampleEnv (lit "reopened, closed") "active") = false →
      (mentions sampleEnv (lit "reopened, closed") "closed"
        || mentions sampleEnv (lit "reopened, closed") "completed") = false →
      (mentions sampleEnv (lit "reopened, closed") "error"
        || mentions sampleEnv (lit "reopened, closed") "failed") = false →
      (mentions sampleEnv (lit "reopened, closed") "pending"
        || mentions sampleEnv (lit "reopened, closed") "waiting") = true →
      colorizeStatus sampleEnv (lit "reopened, closed")
        = sampleEnv.YellowString (lit "reopened, closed")) ∧
    ((mentions sampleEnv (lit "reopened, closed") "open"
        || mentions sampleEnv (lit "reopened, closed") "active") = false →
      (mentions sampleEnv (lit "reopened, closed") "closed"
        || mentions sampleEnv (lit "reopened, closed") "completed") = false →
      (mentions sampleEnv (lit "reopened, closed") "error"
        || mentions sampleEnv (lit "reopened, closed") "failed") = false →
      (mentions sampleEnv (lit "reopened, closed") "pending"
        || mentions sampleEnv (lit "reopened, closed") "waiting") = false →
      colorizeStatus sampleEnv (lit "reopened, closed") = lit "reopened, closed") ∧
    (mentions sampleEnv (lit "reopened, closed") "open" = true →
      mentions sampleEnv (lit "reopened, closed") "closed" = true →
      colorizeStatus sampleEnv (lit "reopened, closed")
        = sampleEnv.GreenString (lit "reopened, closed")) ∧
    colorizeStatus sampleEnv (lit "OPEN") = sampleEnv.GreenString (lit "OPEN") ∧
    colorizeStatus sampleEnv (lit "weird-status") = lit "weird-status") :=
  ⟨rfl, colorizeStatus_order sampleEnv rfl (lit "reopened, closed")⟩

/-- C18: with colour suppressed colorizeStatus returns every text unchanged,
so applying it twice is the same as applying it once; the text `open`, a
status keyword, is returned as it is. -/
theorem colorizeStatus_suppressed (env : Env) (h : env.NoColor = true) (x : GoString) :
    colorizeStatus env x = x ∧
    colorizeStatus env (colorizeStatus env x) = colorizeStatus env x ∧
    colorizeStatus env (lit "open") = lit "open" := by
  have hid : ∀ y, colorizeStatus env y = y := fun y => by simp [colorizeStatus, h]
  exact ⟨hid x, by rw [hid x, hid x], hid _⟩

theorem colorizeStatus_suppressed_witness :
    ({ sampleEnv with NoColor := true } : Env).NoColor = true ∧
    (colorizeStatus { sampleEnv with NoColor := true } (lit "closed") = lit "closed" ∧
    colorizeStatus { sampleEnv with NoColor := true }
        (colorizeStatus { sampleEnv with NoColor := true } (lit "closed"))
      = colorizeStatus { sampleEnv with NoColor := true } (lit "closed") ∧
    colorizeStatus { sampleEnv with NoColor := true } (lit "open") = lit "open") :=
  ⟨rfl, colorizeStatus_suppressed { sampleEnv with NoColor := true } rfl (lit "closed")⟩

set_option maxRecDepth 4096 in
/-- C19: in the rows of getRow and in the Field, Value rows of formatSingle
the cell of a field is passed through colorizeStatus exactly when the
lower-cased field name contains `status`; the cell of any other field is the
generic string form of the value, also when the value holds a keyword: in
the sample record the Title `failed to open` stays as it is while the Status
`open` is wrapped. -/
theorem status_fields_only (env : Env) (w : Sink)
    (fields : List (StructField Value)) :
    getRow env (some (Value.struct fields))
      = some ((visibleFields fields).map (cellText env), none) ∧
    formatSingle env w (some (Value.struct fields))
      = some (env.Render
          { header := [lit "Field", lit "Value"]
            rows := (visibleFields fields).map (fun f => [f.Name, cellText env f]) }
          w) ∧
    (∀ f : StructField Value,
      (Contains (ToLower env.mapLower f.Name) (lit "status") = true →
        cellText env f = colorizeStatus env (env.Sprint f.Value.Interface)) ∧
      (Contains (ToLower env.mapLower f.Name) (lit "status") = false →
        cellText env f = env.Sprint f.Value.Interface)) ∧
    getRow sampleEnv (some sampleRecord)
      = some ([lit "7", lit "failed to open", lit "\x1b[32mopen\x1b[0m"], none) := by
  refine ⟨getRow_struct env fields, formatSingle_struct env w (Value.struct fields) rfl,
    fun f => ⟨cellText_status env f, cellText_plain env f⟩, ?_⟩
  decide

/-! ## Claims on write failures -/

/-- C20 at its failing inputs: on a sink whose write fails with an error the
table renderer returns success both for an empty collection and for a plain
string, although the write it made returned the error; for a collection of
records it returns what the table library's Render returns. -/
theorem Format_drops_write_error :
    (brokenSink.Write (lit "No results found\n")).2 = some (lit "write: broken pipe") ∧
    TableFormatter.Format sampleEnv brokenSink (some (Value.slice []))
      = some (brokenSink, none) ∧
    (brokenSink.Write (lit "hello\n")).2 = some (lit "write: broken pipe") ∧
    TableFormatter.Format sampleEnv brokenSink (some (Value.string (lit "hello")))
      = some (brokenSink, none) ∧
    TableFormatter.Format sampleEnv brokenSink (some (Value.slice [sampleRecord]))
      = some (brokenSink, some (lit "write: broken pipe")) := by
  decide

/-! ## The list commands in closed form -/

theorem applyLimit_eq {α : Type} (limit : Int) (xs : List α) :
    applyLimit limit xs
      = some (if limit > 0 ∧ (xs.length : Int) > limit then xs.take limit.toNat else xs) := by
  by_cases h : limit > 0 ∧ (xs.length : Int) > limit
  · have h1 : 0 ≤ limit ∧ limit ≤ (xs.length : Int) := ⟨by omega, by omega⟩
    simp only [applyLimit, if_pos h, sliceList, if_pos h1]
  · simp only [applyLimit, if_neg h]

theorem ToCardDisplaySlice_isSome (cards : List Card) :
    ∃ ds, ToCardDisplaySlice cards = some ds ∧ ds.length = cards.length := by
  induction cards with
  | nil => exact ⟨[], rfl, rfl⟩
  | cons c cs ih =>
    obtain ⟨ds, hds, hlen⟩ := ih
    obtain ⟨d, hd, -⟩ := ToCardDisplay_spec c
    refine ⟨d :: ds, ?_, by simp [hlen]⟩
    unfold ToCardDisplaySlice at hds ⊢
    rw [List.mapM_cons, hd, hds]
    rfl

/-! ## Claims on the commands -/

/-- C22 at its failing input: with the format identifier empty, which
NewFormatter accepts and maps to the table renderer, `cards list` hands the
untransformed cards to the table renderer and `cards get` the untransformed
card; with `table` they hand the compact and the detail projection, with
`json` the untransformed cards to the JSON renderer. -/
theorem cards_commands_empty_format :
    NewFormatter emptySink (lit "") (some emptySink)
      = Except.ok (Formatter.TableFormatter emptySink) ∧
    cardsListCmd emptySink (lit "") (some emptySink) 0 [sampleCard]
      = some (Except.ok
          { formatter := Formatter.TableFormatter emptySink
            data := RenderArg.cards [sampleCard] }) ∧
    cardsGetCmd emptySink (lit "") (some emptySink) sampleCard
      = Except.ok
          { formatter := Formatter.TableFormatter emptySink
            data := RenderArg.card sampleCard } ∧
    cardsListCmd emptySink (lit "table") (some emptySink) 0 [sampleCard]
      = some (Except.ok
          { formatter := Formatter.TableFormatter emptySink
            data := RenderArg.cardDisplays
              [{ Num := 7, Title := lit "Fix login", Desc := [], Status := lit "open",
                 Board := [], Tags := [] }] }) ∧
    cardsGetCmd emptySink (lit "table") (some emptySink) sampleCard
      = Except.ok
          { formatter := Formatter.TableFormatter emptySink
            data := RenderArg.cardDetail (ToCardDetailDisplay sampleCard) } ∧
    cardsListCmd emptySink (lit "json") (some emptySink) 0 [sampleCard]
      = some (Except.ok
          { formatter := Formatter.JSONFormatter emptySink
            data := RenderArg.cards [sampleCard] }) := by
  refine ⟨rfl, rfl, rfl, rfl, rfl, rfl⟩

/-- C23: the list commands keep the first `limit` items in their original
order when limit is positive and the list is longer, and the whole list
otherwise; limit 0 keeps all, and for a positive limit the kept list has
length min(limit, length).  The kept list is what `boards list` hands to the
renderer and what `cards list` hands on, projected for the format `table`. -/
theorem list_commands_limit {W : Type} (stdout : W) (format : GoString)
    (writer : Option W) (limit : Int) (cards : List Card) (boards : List Board) :
    (limit > 0 → (cards.length : Int) > limit →
      applyLimit limit cards = some (cards.take limit.toNat)) ∧
    (¬ (limit > 0 ∧ (cards.length : Int) > limit) → applyLimit limit cards = some cards) ∧
    applyLimit 0 cards = some cards ∧
    (∃ kept, applyLimit limit cards = some kept ∧ kept <+: cards ∧
      (limit > 0 → kept.length = min limit.toNat cards.length) ∧
      (∀ f, NewFormatter stdout format writer = Except.ok f → format ≠ lit "table" →
        cardsListCmd stdout format writer limit cards
          = some (Except.ok { formatter := f, data := RenderArg.cards kept })) ∧
      (∀ f, NewFormatter stdout format writer = Except.ok f → format = lit "table" →
        ∃ ds, ToCardDisplaySlice kept = some ds ∧
          cardsListCmd stdout format writer limit cards
            = some (Except.ok { formatter := f, data := RenderArg.cardDisplays ds }))) ∧
    (∃ kept, applyLimit limit boards = some kept ∧ kept <+: boards ∧
      (limit > 0 → kept.length = min limit.toNat boards.length) ∧
      (limit > 0 → (boards.length : Int) > limit → kept = boards.take limit.toNat) ∧
      (¬ (limit > 0 ∧ (boards.length : Int) > limit) → kept = boards) ∧
      (∀ f, NewFormatter stdout format writer = Except.ok f →
        boardsListCmd stdout format writer limit boards
          = some (Except.ok { formatter := f, data := RenderArg.boards kept }))) := by
  have key : ∀ {α : Type} (xs : List α),
      (if limit > 0 ∧ (xs.length : Int) > limit then xs.take limit.toNat else xs) <+: xs ∧
      (limit > 0 →
        (if limit > 0 ∧ (xs.length : Int) > limit then xs.take limit.toNat else xs).length
          = min limit.toNat xs.length) := by
    intro α xs
    by_cases h : limit > 0 ∧ (xs.length : Int) > limit
    · rw [if_pos h]
      refine ⟨List.take_prefix _ _, fun _ => ?_⟩
      rw [List.length_take]
    · rw [if_neg h]
      refine ⟨List.prefix_refl _, fun hpos => ?_⟩
      omega
  refine ⟨?_, ?_, ?_, ?_, ?_⟩
  · intro h1 h2
    rw [applyLimit_eq, if_pos ⟨h1, h2⟩]
  · intro h
    rw [applyLimit_eq, if_neg h]
  · rw [applyLimit_eq, if_neg (by omega)]
  · refine ⟨_, applyLimit_eq limit cards, (key cards).1, (key cards).2, ?_, ?_⟩
    · intro f hf hne
      simp [cardsListCmd, applyLimit_eq, hf, hne]
    · intro f hf he
      obtain ⟨ds, hds, -⟩ := ToCardDisplaySlice_isSome
        (if limit > 0 ∧ (cards.length : Int) > limit then cards.take limit.toNat else cards)
      refine ⟨ds, hds, ?_⟩
      subst he
      simp only [cardsListCmd, applyLimit_eq, Option.bind_eq_bind, Option.some_bind, hf,
        if_true, hds]
      rfl
  · refine ⟨_, applyLimit_eq limit boards, (key boards).1, (key boards).2, ?_, ?_, ?_⟩
    · intro h1 h2
      rw [if_pos ⟨h1, h2⟩]
    · intro h
      rw [if_neg h]
    · intro f hf
      simp [boardsListCmd, applyLimit_eq, hf]

/-! ## Further claims on truncate -/

/-- C24, as the code has it: for every text and every budget that is not
negative truncate returns a text, and each slice it takes is in range: the
branch for budgets up to three slices at `maxLen`, the last branch at
`maxLen - 3`, which is positive there. -/
theorem truncate_total_nonneg (s : GoString) (maxLen : Int) (h0 : 0 ≤ maxLen) :
    ∃ r, truncate s maxLen = some r ∧
      ((s.length : Int) ≤ maxLen → r = s) ∧
      (maxLen < (s.length : Int) → maxLen ≤ 3 → sliceTo s maxLen = some r) ∧
      (maxLen < (s.length : Int) → 3 < maxLen →
        ∃ p, sliceTo s (maxLen - 3) = some p ∧ r = p ++ lit "...") := by
  by_cases hfit : (s.length : Int) ≤ maxLen
  · refine ⟨s, truncate_fits s maxLen hfit, fun _ => rfl, ?_, ?_⟩
    · intro h
      omega
    · intro h
      omega
  · by_cases h3 : maxLen ≤ 3
    · refine ⟨_, truncate_small s maxLen h0 h3, ?_, ?_, ?_⟩
      · intro h
        exact absurd h hfit
      · intro _ _
        exact sliceTo_eq s maxLen h0 (by omega)
      · intro _ h
        omega
    · refine ⟨_, truncate_cut s maxLen (by omega) (by omega), ?_, ?_, ?_⟩
      · intro h
        exact absurd h hfit
      · intro _ h
        exact absurd h h3
      · intro _ _
        exact ⟨_, sliceTo_eq s (maxLen - 3) (by omega) (by omega), rfl⟩

theorem truncate_total_nonneg_witness :
    (0 : Int) ≤ 0 ∧
    ∃ r, truncate (lit "abc") 0 = some r ∧
      ((((lit "abc").length : Nat) : Int) ≤ 0 → r = lit "abc") ∧
      ((0 : Int) < (((lit "abc").length : Nat) : Int) → (0 : Int) ≤ 3 →
        sliceTo (lit "abc") 0 = some r) ∧
      ((0 : Int) < (((lit "abc").length : Nat) : Int) → (3 : Int) < 0 →
        ∃ p, sliceTo (lit "abc") (0 - 3) = some p ∧ r = p ++ lit "...") :=
  ⟨by decide, truncate_total_nonneg (lit "abc") 0 (by decide)⟩

/-- C24 as stated fails for a negative budget: truncate of `abc` with budget
minus one takes the branch for budgets up to three and slices at minus one,
which is out of range; the same happens for the empty text. -/
theorem truncate_negative_budget :
    truncate (lit "abc") (-1) = none ∧
    sliceTo (lit "abc") (-1) = none ∧
    truncate [] (-1) = none := by
  decide

/-- C25 at its failing input: the three-character text `日本語` is nine bytes
long; with budget five, within which its three characters fit, truncate does
not return it but the first two bytes of `日`, a partial character, followed
by the marker. -/
theorem truncate_multibyte_cut :
    (['日', '本', '語'].length : Int) ≤ 5 ∧
    (utf8 ['日', '本', '語']).length = 9 ∧
    utf8 ['日'] = [0xE6, 0x97, 0xA5] ∧
    truncate (utf8 ['日', '本', '語']) 5 = some ([0xE6, 0x97] ++ lit "...") ∧
    truncate (utf8 ['日', '本', '語']) 5 ≠ some (utf8 ['日', '本', '語']) := by
  decide

theorem truncate_again (s r : GoString) (maxLen : Int) (h0 : 0 ≤ maxLen)
    (h : truncate s maxLen = some r) : truncate r maxLen = some r :=
  truncate_fits r maxLen (truncate_length_le s r maxLen h0 h)

/-- C28: for a budget that is not negative, truncating the result of
truncate with the same budget returns it unchanged; so truncating again the
title, description, board name and tag list of a compact card record with
their budgets changes nothing. -/
theorem truncate_idempotent (s : GoString) (maxLen : Int) (h0 : 0 ≤ maxLen) :
    (∃ r, truncate s maxLen = some r ∧ truncate r maxLen = some r) ∧
    (truncate s maxLen).bind (fun r => truncate r maxLen) = truncate s maxLen ∧
    (∀ card : Card, ∃ d, ToCardDisplay card = some d ∧
      truncate d.Title 40 = some d.Title ∧ truncate d.Desc 30 = some d.Desc ∧
      truncate d.Board 20 = some d.Board ∧ truncate d.Tags 15 = some d.Tags) := by
  obtain ⟨r, hr⟩ := truncate_isSome s maxLen h0
  refine ⟨⟨r, hr, truncate_again s r maxLen h0 hr⟩, ?_, ?_⟩
  · rw [hr, Option.some_bind]
    exact truncate_again s r maxLen h0 hr
  · intro card
    obtain ⟨d, hd, -, h2, -, h4, h5, h6, h7, h8⟩ := ToCardDisplay_spec card
    refine ⟨d, hd, truncate_again _ _ 40 (by decide) h2, ?_, ?_, ?_⟩
    · cases hdesc : card.Description with
      | none =>
        rw [h5 (Or.inl hdesc)]
        exact truncate_fits [] 30 (by decide)
      | some ds =>
        by_cases hne : ds = []
        · subst hne
          rw [h5 (Or.inr hdesc)]
          exact truncate_fits [] 30 (by decide)
        · exact truncate_again _ _ 30 (by decide) (h4 ds hdesc hne)
    · cases hb : card.Board with
      | none =>
        rw [h7 hb]
        exact truncate_fits [] 20 (by decide)
      | some b => exact truncate_again _ _ 20 (by decide) (h6 b hb)
    · rw [formatNames_join (card.Tags.map Tag.Name) 15 (by decide)] at h8
      exact truncate_again _ _ 15 (by decide) h8

theorem truncate_idempotent_witness :
    (0 : Int) ≤ 8 ∧
    ((∃ r, truncate (lit "hello world") 8 = some r ∧ truncate r 8 = some r) ∧
    (truncate (lit "hello world") 8).bind (fun r => truncate r 8)
      = truncate (lit "hello world") 8 ∧
    (∀ card : Card, ∃ d, ToCardDisplay card = some d ∧
      truncate d.Title 40 = some d.Title ∧ truncate d.Desc 30 = some d.Desc ∧
      truncate d.Board 20 = some d.Board ∧ truncate d.Tags 15 = some d.Tags)) :=
  ⟨by decide, truncate_idempotent (lit "hello world") 8 (by decide)⟩

/-! ## Rows against headers -/

theorem visible_names_of_keys (fs gs : List (StructField Value))
    (h : fs.map (fun f => (f.Name, f.PkgPath)) = gs.map (fun f => (f.Name, f.PkgPath))) :
    (visibleFields fs).map (fun f => f.Name) = (visibleFields gs).map (fun f => f.Name) := by
  induction fs generalizing gs with
  | nil =>
    cases gs with
    | nil => rfl
    | cons g gs => simp at h
  | cons f fs ih =>
    cases gs with
    | nil => simp at h
    | cons g gs =>
      simp only [List.map_cons, List.cons.injEq, Prod.mk.injEq] at h
      obtain ⟨⟨hn, hp⟩, ht⟩ := h
      have ih' := ih gs ht
      simp only [visibleFields, StructField.IsExported] at ih' ⊢
      simp only [List.filter_cons, hp]
      cases g.PkgPath.isEmpty <;> simp [ih', hn]

theorem getRow_iface (env : Env) (x : Option Value) :
    getRow env (some (Value.iface x)) = some ([env.Sprint x], none) := by
  rfl

theorem getRow_total (env : Env) (e : Value) (h : e ≠ Value.ptr none) :
    ∃ row, getRow env (some e) = some (row, none) := by
  cases e with
  | struct fields => exact ⟨_, getRow_struct env fields⟩
  | ptr elem =>
    cases elem with
    | none => exact absurd rfl h
    | some v =>
      cases v with
      | struct fields => exact ⟨_, getRow_struct env fields⟩
      | _ => exact ⟨_, rfl⟩
  | _ => exact ⟨_, rfl⟩

theorem appendRows_total (env : Env) (elems : List Value) (t : Table)
    (h : ∀ e ∈ elems, e ≠ Value.ptr none) :
    ∃ t', appendRows env elems t = some (Except.ok t') := by
  induction elems generalizing t with
  | nil => exact ⟨t, rfl⟩
  | cons e es ih =>
    obtain ⟨row, hrow⟩ := getRow_total env e (h e (List.mem_cons_self e es))
    rw [appendRows, hrow]
    exact ih _ (fun x hx => h x (List.mem_cons_of_mem e hx))

theorem appendRows_ifaces (env : Env) (elems : List Value) (t : Table)
    (h : ∀ e ∈ elems, Kind.of (some e) = Kind.Interface) :
    appendRows env elems t
      = some (Except.ok
          { header := t.header
            rows := t.rows ++ elems.map (fun e => [env.Sprint e.Interface]) }) := by
  induction elems generalizing t with
  | nil => simp [appendRows]
  | cons e es ih =>
    have he := h e (List.mem_cons_self e es)
    cases e with
    | iface x =>
      rw [appendRows, getRow_iface]
      simp only
      rw [ih _ (fun y hy => h y (List.mem_cons_of_mem _ hy))]
      simp [Table.Append, Value.Interface]
    | _ => simp [Kind.of] at he

theorem iface_of_mixed (a b : Value) (hs : sameElemType a b = true)
    (ha : holdsRecord a = true) (hb : holdsRecord b = true)
    (hd : (heldFields b).map (fun f => (f.Name, f.PkgPath))
      ≠ (heldFields a).map (fun f => (f.Name, f.PkgPath))) :
    Kind.of (some a) = Kind.Interface := by
  cases a with
  | iface x => rfl
  | struct fa =>
    cases b with
    | struct fb =>
      simp only [sameElemType, decide_eq_true_eq] at hs
      exact absurd hs.symm hd
    | _ => simp [sameElemType] at hs
  | ptr pa =>
    rcases isRecord_cases (Value.ptr pa) ha with h1 | h1
    · cases h1
    · cases b with
      | ptr pb =>
        rcases isRecord_cases (Value.ptr pb) hb with h2 | h2
        · cases h2
        · rw [h1, h2] at hs
          simp only [sameElemType, decide_eq_true_eq] at hs
          rw [h1, h2] at hd
          exact absurd hs.symm hd
      | _ =>
        rw [h1] at hs
        simp [sameElemType] at hs
  | _ => simp [holdsRecord, isRecord] at ha

/-! ## Claims on rows and headers -/

/-- C26: in a non-empty collection of records of one type every row built by
getRow has as many cells as the header taken from the first element, and
pairing the header with the row gives, position by position, the name of a
visible field of the element and the cell built from that field's value.
The records made by ToCardDisplaySlice and ToBoardDisplaySlice are of one
type each, whatever their fields hold. -/
theorem rows_match_header (env : Env) (first : Value) (rest : List Value)
    (h : ∀ e ∈ first :: rest, isRecord e = true ∧ shape e = shape first) :
    (∀ e ∈ first :: rest, ∃ row, getRow env (some e) = some (row, none) ∧
      row.length = (getHeaders (some first)).1.length ∧
      List.zip (getHeaders (some first)).1 row
        = (visibleFields (recordFields e)).map (fun f => (f.Name, cellText env f))) ∧
    (∀ d0 d : CardDisplay,
      isRecord d.toValue = true ∧ shape d.toValue = shape d0.toValue) ∧
    (∀ d0 d : BoardDisplay,
      isRecord d.toValue = true ∧ shape d.toValue = shape d0.toValue) := by
  refine ⟨?_, fun _ _ => ⟨rfl, rfl⟩, fun _ _ => ⟨rfl, rfl⟩⟩
  intro e he
  obtain ⟨hrec, hshape⟩ := h e he
  have hfirst := (h first (List.mem_cons_self first rest)).1
  have hnames := visible_names_of_keys (recordFields e) (recordFields first) hshape
  refine ⟨_, getRow_record env e hrec, ?_, ?_⟩
  · rw [getHeaders_record first hfirst]
    simp only [List.length_map]
    have := congrArg List.length hnames
    simpa using this
  · rw [getHeaders_record first hfirst]
    simp only
    rw [← hnames]
    exact List.zip_map' _ _ _

theorem rows_match_header_witness :
    (∀ e ∈ sampleRecord :: [sampleRecord],
      isRecord e = true ∧ shape e = shape sampleRecord) ∧
    ((∀ e ∈ sampleRecord :: [sampleRecord],
      ∃ row, getRow sampleEnv (some e) = some (row, none) ∧
      row.length = (getHeaders (some sampleRecord)).1.length ∧
      List.zip (getHeaders (some sampleRecord)).1 row
        = (visibleFields (recordFields e)).map
            (fun f => (f.Name, cellText sampleEnv f))) ∧
    (∀ d0 d : CardDisplay,
      isRecord d.toValue = true ∧ shape d.toValue = shape d0.toValue) ∧
    (∀ d0 d : BoardDisplay,
      isRecord d.toValue = true ∧ shape d.toValue = shape d0.toValue)) :=
  ⟨by decide, rows_match_header sampleEnv sampleRecord [sampleRecord] (by decide)⟩

/-- C27, as the code has it: a Go slice whose elements hold records with
different field sets has an interface element type, and the renderer does not
look inside an interface value: the header row is the single header `Value`
and every row, the later element's too, is one cell with the generic string
form of the whole element. -/
theorem mixed_collection_rows (env : Env) (w : Sink) (first later : Value)
    (rest : List Value)
    (htyped : ∀ e ∈ first :: rest, sameElemType first e = true)
    (hmem : later ∈ rest)
    (hfirst : holdsRecord first = true) (hlater : holdsRecord later = true)
    (hdiff : (heldFields later).map (fun f => (f.Name, f.PkgPath))
      ≠ (heldFields first).map (fun f => (f.Name, f.PkgPath))) :
    (∀ e ∈ first :: rest, Kind.of (some e) = Kind.Interface) ∧
    getHeaders (some first) = ([lit "Value"], none) ∧
    getRow env (some later) = some ([env.Sprint later.Interface], none) ∧
    TableFormatter.Format env w (some (Value.slice (first :: rest)))
      = some (env.Render
          { header := [lit "Value"]
            rows := (first :: rest).map (fun e => [env.Sprint e.Interface]) } w) := by
  have hk : Kind.of (some first) = Kind.Interface :=
    iface_of_mixed first later
      (htyped later (List.mem_cons_of_mem first hmem)) hfirst hlater hdiff
  have hall : ∀ e ∈ first :: rest, Kind.of (some e) = Kind.Interface := by
    intro e he
    have hs := htyped e he
    cases first with
    | iface x =>
      cases e with
      | iface y => rfl
      | _ => simp [sameElemType] at hs
    | _ => simp [Kind.of] at hk
  have hhead : getHeaders (some first) = ([lit "Value"], none) := by
    cases first with
    | iface x => rfl
    | _ => simp [Kind.of] at hk
  have hrow : getRow env (some later) = some ([env.Sprint later.Interface], none) := by
    have hl := hall later (List.mem_cons_of_mem first hmem)
    cases later with
    | iface x => rfl
    | _ => simp [Kind.of] at hl
  refine ⟨hall, hhead, hrow, ?_⟩
  have hr := appendRows_ifaces env (first :: rest) (NewWriter.Header [lit "Value"]) hall
  simp only [TableFormatter.Format, List.length_cons, Nat.add_one_ne_zero, if_false,
    formatSlice, hhead, hr]
  simp [NewWriter, Table.Header]

theorem mixed_collection_rows_witness :
    (∀ e ∈ Value.iface (some sampleRecord) :: [Value.iface (some sampleBoardRecord)],
      sameElemType (Value.iface (some sampleRecord)) e = true) ∧
    Value.iface (some sampleBoardRecord) ∈ [Value.iface (some sampleBoardRecord)] ∧
    holdsRecord (Value.iface (some sampleRecord)) = true ∧
    holdsRecord (Value.iface (some sampleBoardRecord)) = true ∧
    (heldFields (Value.iface (some sampleBoardRecord))).map (fun f => (f.Name, f.PkgPath))
      ≠ (heldFields (Value.iface (some sampleRecord))).map
          (fun f => (f.Name, f.PkgPath)) ∧
    ((∀ e ∈ Value.iface (some sampleRecord) :: [Value.iface (some sampleBoardRecord)],
      Kind.of (some e) = Kind.Interface) ∧
    getHeaders (some (Value.iface (some sampleRecord))) = ([lit "Value"], none) ∧
    getRow sampleEnv (some (Value.iface (some sampleBoardRecord)))
      = some ([sampleEnv.Sprint (Value.iface (some sampleBoardRecord)).Interface], none) ∧
    TableFormatter.Format sampleEnv emptySink
        (some (Value.slice
          (Value.iface (some sampleRecord) :: [Value.iface (some sampleBoardRecord)])))
      = some (sampleEnv.Render
          { header := [lit "Value"]
            rows := (Value.iface (some sampleRecord)
                :: [Value.iface (some sampleBoardRecord)]).map
              (fun e => [sampleEnv.Sprint e.Interface]) } emptySink)) :=
  ⟨by decide, List.mem_singleton.mpr rfl, rfl, rfl, by decide,
    mixed_collection_rows sampleEnv emptySink (Value.iface (some sampleRecord))
      (Value.iface (some sampleBoardRecord)) [Value.iface (some sampleBoardRecord)]
      (by decide) (List.mem_singleton.mpr rfl) rfl rfl (by decide)⟩

/-- C27 as stated fails: in the collection of a card-like record followed by
a board-like record the header is not the three visible field names of the
first element but the single header `Value`, and the row of the later
element has one cell although the element has two visible fields. -/
theorem mixed_collection_single_cell :
    getHeaders (some (Value.iface (some sampleRecord))) = ([lit "Value"], none) ∧
    (visibleFields (heldFields (Value.iface (some sampleRecord)))).map (fun f => f.Name)
      = [lit "Number", lit "Title", lit "Status"] ∧
    getRow sampleEnv (some (Value.iface (some sampleBoardRecord)))
      = some ([sampleEnv.Sprint (some sampleBoardRecord)], none) ∧
    (visibleFields (heldFields (Value.iface (some sampleBoardRecord)))).length = 2 := by
  decide

/-- C29: getHeaders and getRow return without failing for every element that
is not a nil pointer, so for records, non-nil pointers to records and
scalars, and the renderer then returns for the whole collection.  For a nil
pointer getHeaders returns the single header `Value` while getRow fails, and
so does the rendering of a collection that holds one. -/
theorem headers_rows_total (env : Env) (w : Sink) (e : Value) (rest : List Value)
    (h : ∀ x ∈ e :: rest, x ≠ Value.ptr none) :
    (∃ hs, getHeaders (some e) = (hs, none)) ∧
    (∀ x ∈ e :: rest, ∃ row, getRow env (some x) = some (row, none)) ∧
    (∃ r, TableFormatter.Format env w (some (Value.slice (e :: rest))) = some r) ∧
    getHeaders (some (Value.ptr none)) = ([lit "Value"], none) ∧
    getRow env (some (Value.ptr none)) = none ∧
    TableFormatter.Format env w (some (Value.slice (e :: rest ++ [Value.ptr none])))
      = none := by
  have hh : ∀ v : Option Value, ∃ hs, getHeaders v = (hs, none) := by
    intro v
    unfold getHeaders
    simp only
    split <;> exact ⟨_, rfl⟩
  have hpanic : ∀ (elems : List Value) (t : Table),
      (∀ x ∈ elems, x ≠ Value.ptr none) →
      appendRows env (elems ++ [Value.ptr none]) t = none := by
    intro elems
    induction elems with
    | nil =>
      intro t _
      rfl
    | cons x xs ih =>
      intro t hx
      obtain ⟨row, hrow⟩ := getRow_total env x (hx x (List.mem_cons_self x xs))
      rw [List.cons_append, appendRows, hrow]
      exact ih _ (fun y hy => hx y (List.mem_cons_of_mem x hy))
  refine ⟨hh _, fun x hx => getRow_total env x (h x hx), ?_, rfl, rfl, ?_⟩
  · obtain ⟨hs, hhs⟩ := hh (some e)
    obtain ⟨t', ht'⟩ := appendRows_total env (e :: rest) (NewWriter.Header hs) h
    refine ⟨env.Render t' w, ?_⟩
    simp only [TableFormatter.Format, List.length_cons, Nat.add_one_ne_zero, if_false,
      formatSlice, hhs, ht']
  · obtain ⟨hs, hhs⟩ := hh (some e)
    have hp := hpanic (e :: rest) (NewWriter.Header hs) h
    simp only [List.cons_append] at hp
    simp only [TableFormatter.Format, List.cons_append, List.length_cons,
      Nat.add_one_ne_zero, if_false, formatSlice, hhs, hp]

theorem headers_rows_total_witness :
    (∀ x ∈ sampleRecord :: [Value.int 3], x ≠ Value.ptr none) ∧
    ((∃ hs, getHeaders (some sampleRecord) = (hs, none)) ∧
    (∀ x ∈ sampleRecord :: [Value.int 3],
      ∃ row, getRow sampleEnv (some x) = some (row, none)) ∧
    (∃ r, TableFormatter.Format sampleEnv emptySink
      (some (Value.slice (sampleRecord :: [Value.int 3]))) = some r) ∧
    getHeaders (some (Value.ptr none)) = ([lit "Value"], none) ∧
    getRow sampleEnv (some (Value.ptr none)) = none ∧
    TableFormatter.Format sampleEnv emptySink
        (some (Value.slice (sampleRecord :: [Value.int 3] ++ [Value.ptr none])))
      = none) :=
  ⟨by simp [sampleRecord],
    headers_rows_total sampleEnv emptySink sampleRecord [Value.int 3]
      (by simp [sampleRecord])⟩

/-! ## Claims on the confirmation lines -/

set_option maxRecDepth 8192 in
/-- C30 at its failing input: for the card identifier `123` a successful
`cards delete` writes `Card %!d(string=123) deleted successfully`, the form
package fmt gives to the verb `%d` on a string, while `cards close` and
`cards reopen` render the identifier verbatim. -/
theorem cards_delete_line :
    ResolveCardID (lit "123") = (lit "123", none) ∧
    cardsDeleteCmd emptySink (lit "123") none
      = ({ written := lit "Card %!d(string=123) deleted successfully\n", failure := none },
          none) ∧
    lit "Card %!d(string=123) deleted successfully\n"
      ≠ lit "Card 123 deleted successfully\n" ∧
    cardsCloseCmd emptySink (lit "123") none
      = ({ written := lit "Card 123 closed successfully\n", failure := none }, none) ∧
    cardsReopenCmd emptySink (lit "123") none
      = ({ written := lit "Card 123 reopened successfully\n", failure := none }, none) := by
  decide

end Fizz
